import Mathlib

/-!
Verification development for the shocovox sparse voxel octree.

The repository holds two octree implementations side by side:

* the legacy engine in `src/octree.rs` (`Octree<Content>`, one voxel per leaf,
  nodes carry their own bounds), embedded below in namespace `Old`;
* the brick engine spread over `src/octree/update.rs`, `src/octree/detail.rs`
  and `src/octree/raytracing/raytracing_on_cpu.rs` (`Octree<T, DIM>`, leaves
  carry a `DIM³` brick), embedded below in namespace `New`.

Code of the repository that is not under `src/` (the object pool, the node
type declarations, `Cube`, `hash_region` / `offset_region`, `mat_index`,
`plane_line_intersection`, `Cube::intersect_ray` and the brick engine `get`)
is modelled from the specification; each such definition carries a doc
comment starting with `Modelled from the spec`.

Machine integers (`u32`/`usize`) are modelled as `Nat`: every quantity in the
embedded runs stays far below `2^32`, so wrap-around never occurs.  The f32
geometry of the ray-cast engine is modelled over `ℚ`; every concrete input
used in a theorem only produces dyadic intermediate values that f32 represents
exactly, which is noted where it matters.
-/

namespace Shocovox

/-- Embeds `V3c<T>` (src/spatial/math/vector.rs): a 3-component vector. -/
structure V3 (α : Type) where
  x : α
  y : α
  z : α
deriving DecidableEq, Repr

/-- Integer vectors (`V3c<u32>` / `V3c<usize>`). -/
abbrev V3n := V3 Nat

instance : Add V3n := ⟨fun a b => ⟨a.x + b.x, a.y + b.y, a.z + b.z⟩⟩

/-- Component-wise subtraction; all uses are guarded by a containment check in
the source, so truncated `Nat` subtraction agrees with `u32` subtraction. -/
instance : Sub V3n := ⟨fun a b => ⟨a.x - b.x, a.y - b.y, a.z - b.z⟩⟩

instance : HMul V3n Nat V3n := ⟨fun a k => ⟨a.x * k, a.y * k, a.z * k⟩⟩

/-- Embeds `V3c::cut_each_component` (src/spatial/math/vector.rs:42-47,58-63):
clamp every component to at most `value`. -/
def V3.cutEachComponent (a : V3n) (value : Nat) : V3n :=
  ⟨min a.x value, min a.y value, min a.z value⟩

/-- Modelled from the spec (§3): `offset_region(i)` yields the `{0,1}³` corner
of octant `i`, the inverse of `hash_region`.  Bit layout: x is bit 0, z is
bit 1, y is bit 2 (the layout `make_uniform_children` and the ray traversal
rely on).  The source panics for arguments above 7; all call sites pass an
octant below 8, so the catch-all arm is never significant. -/
def offsetRegion : Nat → V3n
  | 0 => ⟨0, 0, 0⟩
  | 1 => ⟨1, 0, 0⟩
  | 2 => ⟨0, 0, 1⟩
  | 3 => ⟨1, 0, 1⟩
  | 4 => ⟨0, 1, 0⟩
  | 5 => ⟨1, 1, 0⟩
  | 6 => ⟨0, 1, 1⟩
  | _ => ⟨1, 1, 1⟩

/-- Modelled from the spec (§3): `hash_region(p, size)` maps a local point `p`
inside a cube of edge `size` to the octant index by bit-packing the three
comparisons `p.i >= size/2`, with inclusive `>=` (spec §9).  The source works
on `f32`; every call made by the tree operations converts integer coordinates
(and an even power-of-two `size`) to `f32`, where both the halving and the
comparison are exact, so over the integers `p.i >= size/2` is `2*p.i >= size`. -/
def hashRegionN (p : V3n) (size : Nat) : Nat :=
  (if size ≤ 2 * p.x then 1 else 0) + (if size ≤ 2 * p.z then 2 else 0) +
    (if size ≤ 2 * p.y then 4 else 0)

/-- Embeds `Cube` (spec §3): the half-open lattice region
`[minPosition, minPosition + size)`. -/
structure Cube where
  minPosition : V3n
  size : Nat
deriving DecidableEq, Repr

/-- Modelled from the spec (§3): `Cube::root_bounds(size)` is the cube at the
origin with edge `size`. -/
def Cube.rootBounds (size : Nat) : Cube := ⟨⟨0, 0, 0⟩, size⟩

/-- Modelled from the spec (I2): the child of a cube at octant `octant` has
`min = C.min + offset_region(octant) * C.size/2` and halved size. -/
def Cube.childBoundsFor (c : Cube) (octant : Nat) : Cube :=
  ⟨c.minPosition + offsetRegion octant * (c.size / 2), c.size / 2⟩

/-- The two error kinds (spec §7; the legacy `Error` of src/octree.rs:4-7 and
the brick engine `OctreeError`, whose declaration is not under src/ and is
modelled from the spec). -/
inductive OctreeError where
  | invalidNodeSize (n : Nat)
  | invalidPosition (x y z : Nat)
deriving DecidableEq, Repr

/-- Outcome of a mutating operation on a state of type `σ`: normal return,
error return (the error paths of the source return before touching the state,
so the state is carried unchanged), a Rust panic, or exhaustion of the fuel
that makes the source's unbounded loops structurally recursive here. -/
inductive OpOut (σ : Type) where
  | ok (s : σ)
  | err (e : OctreeError) (s : σ)
  | panic
  | fuelOut
deriving DecidableEq, Repr

/-- Outcome of a loop that, on `break`, hands a value of type `τ` to the
post-processing code. -/
inductive LoopOut (σ τ : Type) where
  | done (s : σ) (t : τ)
  | panic
  | fuelOut
deriving DecidableEq, Repr

/-- Outcome of a lookup (`get` / `get_mut`): a reference into the tree, an
absent voxel, a Rust panic, or fuel exhaustion. -/
inductive GetRes (V : Type) where
  | found (v : V)
  | absent
  | panic
  | fuelOut
deriving DecidableEq, Repr

/-- The source validates size arguments with
`0 == size || (size as f32).log(2.0).fract() != 0.0` (src/octree.rs:77,176,351).
Exact f32 logarithms are outside this embedding; the test is modelled as an
exact power-of-two test, its stated intent (spec §7: "size argument is zero or
not an integer power of two").  For the small sizes appearing in any theorem
below the f32 expression agrees with this model. -/
def sizeCheckFails (n : Nat) : Bool :=
  n == 0 || !((List.range 32).any fun k => n == 2 ^ k)

/-! ## The legacy engine, src/octree.rs -/

namespace Old

/-- Embeds the legacy `ItemKey` (spec §3: object pool keys with a sentinel
"none" key): `none` is the sentinel, `some i` a slot index. -/
abbrev Key := Option Nat

/-- Embeds `Node<T>` (src/octree.rs:12-20): bounds, optional content (a node
is a leaf iff its content is present), and the 8 child keys. -/
structure Node (V : Type) where
  bounds : Cube
  content : Option V
  children : List Key
deriving DecidableEq, Repr

/-- `Node::default()`: zero bounds, no content, all child keys none. -/
def defaultNode (V : Type) : Node V :=
  { bounds := ⟨⟨0, 0, 0⟩, 0⟩, content := none, children := List.replicate 8 none }

/-- Embeds the legacy `Octree<Content>` (src/octree.rs:63-70) together with
its `ObjectPool` (modelled from the spec §3: growable slot array plus a
free-list of released keys). -/
structure OState (V : Type) where
  autoSimplify : Bool
  rootNode : Key
  slots : List (Node V)
  freeList : List Nat
deriving DecidableEq, Repr

variable {V : Type} [DecidableEq V]

/-- Modelled from the spec (§3): pool `push` reuses the most recently freed
slot if any, else appends; the returned key is stable. -/
def push (s : OState V) (n : Node V) : OState V × Key :=
  match s.freeList with
  | [] => ({ s with slots := s.slots ++ [n] }, some s.slots.length)
  | k :: rest => ({ s with slots := s.slots.set k n, freeList := rest }, some k)

/-- Pool `get` by raw index; out-of-range access (a Rust panic) yields the
default node — no run appearing in a theorem performs such an access. -/
def getNode (s : OState V) (i : Nat) : Node V := s.slots.getD i (defaultNode V)

/-- Modelled from the spec (§3): pool `free` releases a slot for reuse; the
slot's data stays in place.  Freeing the sentinel key is a no-op (the source
frees the — mostly none — child keys of every fresh leaf, so the pool must
tolerate it). -/
def free (s : OState V) (k : Key) : OState V :=
  match k with
  | none => s
  | some i => if i < s.slots.length then { s with freeList := i :: s.freeList } else s

/-- Replace the node stored at slot `i`. -/
def setNode (s : OState V) (i : Nat) (n : Node V) : OState V :=
  { s with slots := s.slots.set i n }

/-- Embeds `Node::contains` (src/octree.rs:27-34).  Note both bounds are
inclusive in the source (`<=` on the upper side). -/
def nodeContains (n : Node V) (p : V3n) : Bool :=
  decide (n.bounds.minPosition.x ≤ p.x ∧ p.x ≤ n.bounds.minPosition.x + n.bounds.size ∧
    n.bounds.minPosition.y ≤ p.y ∧ p.y ≤ n.bounds.minPosition.y + n.bounds.size ∧
    n.bounds.minPosition.z ≤ p.z ∧ p.z ≤ n.bounds.minPosition.z + n.bounds.size)

/-- Embeds `Node::child_octant_for` (src/octree.rs:37-43); the `assert!` on
containment is modelled by returning `none` (the caller then panics). -/
def childOctantFor (n : Node V) (p : V3n) : Option Nat :=
  if nodeContains n p then some (hashRegionN (p - n.bounds.minPosition) n.bounds.size)
  else none

/-- Embeds `Node::is_leaf` (src/octree.rs:50-52). -/
def isLeaf (n : Node V) : Bool := n.content.isSome

/-- Embeds `Octree::make_uniform_children` (src/octree.rs:95-164): eight
sequential pushes of leaves carrying the given content.  The child at octant
`i` gets bounds `{min + offset_region(i) * child_size, child_size}` — exactly
the expressions the source writes out for octants 1–7 (and, consistently with
them, for octant 0). -/
def makeUniformChildren (s : OState V) (minPosition : V3n) (childSize : Nat) (content : V) :
    OState V × List Key :=
  let mk : OState V → Nat → OState V × Key := fun st i =>
    push st { bounds := ⟨minPosition + offsetRegion i * childSize, childSize⟩,
              content := some content, children := List.replicate 8 none }
  let (s0, k0) := mk s 0
  let (s1, k1) := mk s0 1
  let (s2, k2) := mk s1 2
  let (s3, k3) := mk s2 3
  let (s4, k4) := mk s3 4
  let (s5, k5) := mk s4 5
  let (s6, k6) := mk s5 6
  let (s7, k7) := mk s6 7
  (s7, [k0, k1, k2, k3, k4, k5, k6, k7])

/-- Embeds the descent loop of `Octree::insert_at_lod` (src/octree.rs:190-251).
The stack is a cons-list whose head is the deepest node (the source pushes to
and reads from the end of a `Vec`).  On `break` the final state and the stack
are handed to the post-pass. -/
def insertLoop (p : V3n) (minSize : Nat) (data : V) :
    Nat → OState V → List Key → LoopOut (OState V) (List Key)
  | 0, _, _ => .fuelOut
  | fuel + 1, s, stack =>
    match stack with
    | [] => .panic
    | none :: _ => .panic
    | some i :: _ =>
      let node := getNode s i
      match childOctantFor node p with
      | none => .panic
      | some octant =>
        if minSize < node.bounds.size then
          let childKey := node.children.getD octant none
          if childKey.isSome then
            insertLoop p minSize data fuel s (childKey :: stack)
          else
            match node.content with
            | some c =>
              if c = data then
                -- leaf already holds the data: stop (src/octree.rs:201-206)
                .done s stack
              else
                -- refine: the source passes the node's full `bounds.size` as the
                -- children's size (src/octree.rs:216-220)
                let (s1, kids) :=
                  makeUniformChildren s node.bounds.minPosition node.bounds.size c
                let s2 := setNode s1 i { getNode s1 i with content := none, children := kids }
                insertLoop p minSize data fuel s2 (kids.getD octant none :: stack)
            | none =>
              -- allocate a fresh child at the target octant (src/octree.rs:226-239)
              let childSize := node.bounds.size / 2
              let (s1, k) :=
                push s { bounds := ⟨node.bounds.minPosition + offsetRegion octant * childSize,
                                    childSize⟩,
                         content := none, children := List.replicate 8 none }
              let s2 := setNode s1 i
                { getNode s1 i with children := (getNode s1 i).children.set octant k }
              insertLoop p minSize data fuel s2 (k :: stack)
        else
          -- desired depth: set the content, erase the children (src/octree.rs:242-249)
          let s1 := setNode s i { node with content := some data }
          let s2 := (getNode s1 i).children.foldl (fun acc ck => free acc ck) s1
          let s3 := setNode s2 i { getNode s2 i with children := List.replicate 8 none }
          .done s3 stack

/-- Embeds `Octree::simplify` (src/octree.rs:310-344).  The collapse (content
becomes the children's common data, child links are cleared) is performed when
all eight children are live equal-content leaves, but the function then falls
through to `false`: the source never returns `true`. -/
def simplify (s : OState V) (k : Key) : Bool × OState V :=
  match k with
  | none => (false, s)
  | some i =>
    let node := getNode s i
    let step : Option (Option V) → Key → Option (Option V) := fun acc ck =>
      match acc with
      | none => none
      | some data =>
        match ck with
        | none => none
        | some c =>
          match (getNode s c).content with
          | some leafData =>
            match data with
            | none => some (some leafData)
            | some d => if d = leafData then some (some leafData) else none
          | none => none
    match node.children.foldl step (some none) with
    | some data =>
      (false, setNode s i { node with content := data, children := List.replicate 8 none })
    | none => (false, s)

/-- Embeds the auto-simplify post-pass of `insert_at_lod`
(src/octree.rs:253-259): walk the stack deepest-first, stop at the first
`simplify` returning false (the state change made by that call is kept). -/
def postPass (s : OState V) : List Key → OState V
  | [] => s
  | k :: rest =>
    let r := simplify s k
    if r.1 then postPass r.2 rest else r.2

/-- Embeds `Octree::insert_at_lod` (src/octree.rs:170-261). -/
def insertAtLod (s : OState V) (p : V3n) (minNodeSize : Nat) (data : V) (fuel : Nat) :
    OpOut (OState V) :=
  if sizeCheckFails minNodeSize then .err (.invalidNodeSize minNodeSize) s
  else
    match s.rootNode with
    | none => .panic
    | some r =>
      if !nodeContains (getNode s r) p then .err (.invalidPosition p.x p.y p.z) s
      else
        match insertLoop p minNodeSize data fuel s [s.rootNode] with
        | .done s1 stack => .ok (if s1.autoSimplify then postPass s1 stack else s1)
        | .panic => .panic
        | .fuelOut => .fuelOut

/-- Embeds `Octree::insert` (src/octree.rs:166-168). -/
def insert (s : OState V) (p : V3n) (data : V) (fuel : Nat) : OpOut (OState V) :=
  insertAtLod s p 1 data fuel

/-- Embeds the descent loop of `Octree::get` (src/octree.rs:269-280). -/
def getLoop (p : V3n) : Nat → OState V → Key → GetRes V
  | 0, _, _ => .fuelOut
  | fuel + 1, s, k =>
    match k with
    | none => .panic
    | some i =>
      let node := getNode s i
      match node.content with
      | some v => .found v
      | none =>
        match childOctantFor node p with
        | none => .panic
        | some octant =>
          let child := node.children.getD octant none
          if child.isSome then getLoop p fuel s child else .absent

/-- Embeds `Octree::get` (src/octree.rs:263-281). -/
def get (s : OState V) (p : V3n) (fuel : Nat) : GetRes V :=
  match s.rootNode with
  | none => .panic
  | some r =>
    if !nodeContains (getNode s r) p then .absent
    else getLoop p fuel s s.rootNode

/-- Embeds the descent loop of `Octree::get_mut` (src/octree.rs:289-300); the
value behind the returned mutable reference is reported. -/
def getMutLoop (p : V3n) : Nat → OState V → Key → GetRes V
  | 0, _, _ => .fuelOut
  | fuel + 1, s, k =>
    match k with
    | none => .panic
    | some i =>
      let node := getNode s i
      match node.content with
      | some v => .found v
      | none =>
        match childOctantFor node p with
        | none => .panic
        | some octant =>
          let child := node.children.getD octant none
          if child.isSome then getMutLoop p fuel s child else .absent

/-- Embeds `Octree::get_mut` (src/octree.rs:283-301). -/
def getMut (s : OState V) (p : V3n) (fuel : Nat) : GetRes V :=
  match s.rootNode with
  | none => .panic
  | some r =>
    if !nodeContains (getNode s r) p then .absent
    else getMutLoop p fuel s s.rootNode

/-- Embeds the loop of `Octree::clear_at_lod` (src/octree.rs:367-415).  The
`octant` argument carries `target_child_octant` across iterations (initially
9, src/octree.rs:366). -/
def clearLoop (p : V3n) (minSize : Nat) :
    Nat → OState V → List Key → Nat → LoopOut (OState V) Unit
  | 0, _, _, _ => .fuelOut
  | fuel + 1, s, stack, octant =>
    match stack with
    | [] => .panic
    | none :: _ => .panic
    | some i :: _ =>
      let node := getNode s i
      if minSize < node.bounds.size then
        match childOctantFor node p with
        | none => .panic
        | some newOctant =>
          let childKey := node.children.getD newOctant none
          if childKey.isSome then
            clearLoop p minSize fuel s (childKey :: stack) newOctant
          else
            match node.content with
            | some c =>
              -- refine a leaf exactly as insertion does (src/octree.rs:377-392)
              let (s1, kids) :=
                makeUniformChildren s node.bounds.minPosition node.bounds.size c
              let s2 := setNode s1 i { getNode s1 i with content := none, children := kids }
              clearLoop p minSize fuel s2 (kids.getD newOctant none :: stack) newOctant
            | none =>
              -- the child never existed: nothing to do (src/octree.rs:393-397)
              .done s ()
      else
        -- free the children and the node itself (src/octree.rs:400-405)
        let s1 := node.children.foldl (fun acc ck => free acc ck) s
        let s2 := setNode s1 i { getNode s1 i with children := List.replicate 8 none }
        let s3 := free s2 (some i)
        -- sever the parent's child link (src/octree.rs:407-412)
        if 2 ≤ stack.length ∧ octant < 9 then
          match stack.get? 1 with
          | some (some pIdx) =>
            .done (setNode s3 pIdx
              { getNode s3 pIdx with
                  children := (getNode s3 pIdx).children.set octant none }) ()
          | _ => .panic
        else
          .done s3 ()

/-- Embeds `Octree::clear_at_lod` (src/octree.rs:350-418). -/
def clearAtLod (s : OState V) (p : V3n) (minNodeSize : Nat) (fuel : Nat) : OpOut (OState V) :=
  if sizeCheckFails minNodeSize then .err (.invalidNodeSize minNodeSize) s
  else
    match s.rootNode with
    | none => .panic
    | some r =>
      if !nodeContains (getNode s r) p then .err (.invalidPosition p.x p.y p.z) s
      else
        match clearLoop p minNodeSize fuel s [s.rootNode] 9 with
        | .done s1 _ => .ok s1
        | .panic => .panic
        | .fuelOut => .fuelOut

/-- Embeds `Octree::clear` (src/octree.rs:346-348). -/
def clear (s : OState V) (p : V3n) (fuel : Nat) : OpOut (OState V) :=
  clearAtLod s p 1 fuel

/-- Embeds `Octree::new` (src/octree.rs:76-93): validate the size, allocate
the root at slot 0 with bounds `{0, size}`, auto-simplify on. -/
def newOctree (V : Type) (size : Nat) : Except OctreeError (OState V) :=
  if sizeCheckFails size then .error (.invalidNodeSize size)
  else
    let s0 : OState V := { autoSimplify := true, rootNode := none, slots := [], freeList := [] }
    let pr := push s0 { bounds := ⟨⟨0, 0, 0⟩, size⟩, content := none,
                        children := List.replicate 8 none }
    .ok { pr.1 with rootNode := pr.2 }

end Old

/-! ## The brick engine, src/octree/update.rs and src/octree/detail.rs -/

namespace New

/-- The leaf payload of `Octree<T, DIM>`: a dense `DIM³` brick
`[[[T; DIM]; DIM]; DIM]`, stored as nested lists of length `DIM`. -/
abbrev Brick (V : Type) := List (List (List V))

/-- Modelled from the spec (§3): the tagged node content
`Nothing | Internal(count) | Leaf(brick)` (the declaration lives in the
repository's `octree/types.rs`, which is not under src/). -/
inductive NodeContent (B : Type) where
  | nothing
  | internal (count : Nat)
  | leaf (brick : B)
deriving DecidableEq, Repr

/-- The compact child-array representation (spec §3; declaration in
`octree/types.rs`, used throughout src/octree/detail.rs). -/
inductive NodeChildrenArray where
  | noChildren
  | children (c : List Nat)
deriving DecidableEq, Repr

/-- `NodeChildren` (spec §3 / src/octree/detail.rs:32-112): a default key plus
the compact array. -/
structure NodeChildren where
  defaultKey : Nat
  content : NodeChildrenArray
deriving DecidableEq, Repr

/-- Modelled from the spec (§3): the object pool's sentinel "none" key; keys
are `u32`, the sentinel is the maximal one. -/
def keyNoneValue : Nat := 4294967295

/-- Modelled from the spec (§3): `key_might_be_valid` is a cheap non-sentinel
test; it does not guarantee liveness. -/
def keyMightBeValid (k : Nat) : Bool := decide (k < keyNoneValue)

/-- Embeds `NodeChildren::new` (src/octree/detail.rs:40-45). -/
def ncNew (defaultKey : Nat) : NodeChildren := { defaultKey, content := .noChildren }

/-- Embeds `NodeChildren::is_empty` (src/octree/detail.rs:36-38). -/
def ncIsEmpty (nc : NodeChildren) : Bool :=
  match nc.content with
  | .noChildren => true
  | .children _ => false

/-- Embeds the `Index` impl (src/octree/detail.rs:86-97): reading from
`NoChildren` yields the default key. -/
def ncGetIdx (nc : NodeChildren) (idx : Nat) : Nat :=
  match nc.content with
  | .children c => c.getD idx nc.defaultKey
  | .noChildren => nc.defaultKey

/-- Embeds the brick engine `Octree<T, DIM>` state: the node pool (modelled
from the spec §3: slot array plus free-list), the per-node `node_children`
vector, and the construction parameters (`octree_size = root_node_dimension *
DIM`, spec §3). -/
structure NState (V : Type) where
  autoSimplify : Bool
  nodes : List (NodeContent (Brick V))
  freeList : List Nat
  nodeChildren : List NodeChildren
  octreeSize : Nat
  rootNodeDimension : Nat
deriving DecidableEq, Repr

/-- `Octree::ROOT_NODE_KEY` (src/octree/detail.rs:162): the root is slot 0. -/
def rootNodeKey : Nat := 0

variable {V : Type} [DecidableEq V] [Inhabited V]

/-- Modelled from the spec (§3): pool `push` reuses a freed slot or appends. -/
def poolPush (s : NState V) (c : NodeContent (Brick V)) : NState V × Nat :=
  match s.freeList with
  | [] => ({ s with nodes := s.nodes ++ [c] }, s.nodes.length)
  | k :: rest => ({ s with nodes := s.nodes.set k c, freeList := rest }, k)

/-- Pool `get`; an out-of-range access (a Rust panic) yields `Nothing` — no
run appearing in a theorem performs such an access. -/
def poolGet (s : NState V) (k : Nat) : NodeContent (Brick V) := s.nodes.getD k .nothing

/-- Replace the content stored at slot `k`. -/
def poolSet (s : NState V) (k : Nat) (c : NodeContent (Brick V)) : NState V :=
  { s with nodes := s.nodes.set k c }

/-- Modelled from the spec (§3): pool `free` releases a slot for reuse; the
slot's data stays in place. -/
def poolFree (s : NState V) (k : Nat) : NState V :=
  if k < s.nodes.length then { s with freeList := k :: s.freeList } else s

/-- `self.nodes.len()` — the pool's slot count. -/
def poolLen (s : NState V) : Nat := s.nodes.length

/-- The `node_children` entry of a node (a fresh default entry beyond the
vector's length, which no run in a theorem reads). -/
def ncAt (s : NState V) (k : Nat) : NodeChildren := s.nodeChildren.getD k (ncNew keyNoneValue)

/-- Replace the `node_children` entry of node `k`. -/
def ncPut (s : NState V) (k : Nat) (nc : NodeChildren) : NState V :=
  { s with nodeChildren := s.nodeChildren.set k nc }

/-- Embeds the `IndexMut` impl (src/octree/detail.rs:99-112): writing
materializes `NoChildren` into eight default keys first. -/
def ncSetIdx (s : NState V) (node idx key : Nat) : NState V :=
  let nc := ncAt s node
  let arr := match nc.content with
    | .noChildren => List.replicate 8 nc.defaultKey
    | .children c => c
  ncPut s node { nc with content := .children (arr.set idx key) }

/-- Embeds `Vec::resize(len, NodeChildren::new(key_none_value()))` as used in
src/octree/detail.rs:180-181 and src/octree/update.rs:93-94. -/
def resizeChildren (s : NState V) (n : Nat) : NState V :=
  { s with nodeChildren :=
      s.nodeChildren.take n ++ List.replicate (n - s.nodeChildren.length) (ncNew keyNoneValue) }

/-- Embeds `bound_contains` (src/octree/detail.rs:11-18).  Note both bounds
are inclusive in the source (`<=` on the upper side). -/
def boundContains (bounds : Cube) (p : V3n) : Bool :=
  decide (bounds.minPosition.x ≤ p.x ∧ p.x ≤ bounds.minPosition.x + bounds.size ∧
    bounds.minPosition.y ≤ p.y ∧ p.y ≤ bounds.minPosition.y + bounds.size ∧
    bounds.minPosition.z ≤ p.z ∧ p.z ≤ bounds.minPosition.z + bounds.size)

/-- Embeds `child_octant_for` (src/octree/detail.rs:21-27); the `assert!` on
containment is modelled by returning `none` (the caller then panics). -/
def childOctantForB (bounds : Cube) (p : V3n) : Option Nat :=
  if boundContains bounds p then some (hashRegionN (p - bounds.minPosition) bounds.size)
  else none

/-- Embeds `NodeContent::is_leaf` (src/octree/detail.rs:121-123). -/
def NodeContent.isLeaf (c : NodeContent (Brick V)) : Bool :=
  match c with
  | .leaf _ => true
  | _ => false

/-- Cell lookup `brick[x][y][z]`; out-of-range (a Rust panic) yields the
default voxel — no run appearing in a theorem goes out of range. -/
def brickGetCell (b : Brick V) (i : V3n) : V :=
  ((b.getD i.x []).getD i.y []).getD i.z default

/-- Cell update `brick[x][y][z] = v` (out of range: no-op, matching the
bounded iterators of the source at every embedded call site). -/
def brickSetCell (b : Brick V) (i : V3n) (v : V) : Brick V :=
  b.set i.x ((b.getD i.x []).set i.y (((b.getD i.x []).getD i.y []).set i.z v))

/-- A brick holding `DIM³` copies of one voxel. -/
def uniformBrick (DIM : Nat) (v : V) : Brick V :=
  List.replicate DIM (List.replicate DIM (List.replicate DIM v))

/-- Write `v` into every cell `(x, y, z)` with `x0 ≤ x < x0+len`,
`y0 ≤ y < y0+len`, `z0 ≤ z < z0+len` (bounded by the brick's extent, the
semantics of the source's `iter_mut().skip(..).take(..)` chains and of its
in-range index loops). -/
def brickWriteRegion (b : Brick V) (x0 y0 z0 len : Nat) (v : V) : Brick V :=
  b.mapIdx fun x row =>
    if x0 ≤ x ∧ x < x0 + len then
      row.mapIdx fun y col =>
        if y0 ≤ y ∧ y < y0 + len then
          col.mapIdx fun z w => if z0 ≤ z ∧ z < z0 + len then v else w
        else col
    else row

/-- Modelled from the spec (§3/§4.D): `NodeContent::is_all(&data)` — the node
is a leaf whose brick holds `data` everywhere ("a `Leaf` whose uniform value
equals `value`", used at src/octree/update.rs:59-63). -/
def isAll (c : NodeContent (Brick V)) (v : V) : Bool :=
  match c with
  | .leaf b => b.all fun plane => plane.all fun col => col.all fun w => decide (w = v)
  | _ => false

/-- Modelled from the spec (§4.D step 3): `NodeContent::leaf_from(data)` — a
leaf whose whole brick is uniformly `data`. -/
def leafFrom (DIM : Nat) (v : V) : NodeContent (Brick V) := .leaf (uniformBrick DIM v)

/-- Modelled from the spec (§4.D): `mat_index(cube, p) = p − cube.min`,
clamped component-wise to `[0, DIM)`. -/
def matIndex (DIM : Nat) (bounds : Cube) (p : V3n) : V3n :=
  (p - bounds.minPosition).cutEachComponent (DIM - 1)

/-- Embeds `make_uniform_children` (src/octree/detail.rs:169-183): eight
pushes of leaves holding the content, then a resize of `node_children`. -/
def makeUniformChildrenB (s : NState V) (content : Brick V) : NState V × List Nat :=
  let (s0, k0) := poolPush s (.leaf content)
  let (s1, k1) := poolPush s0 (.leaf content)
  let (s2, k2) := poolPush s1 (.leaf content)
  let (s3, k3) := poolPush s2 (.leaf content)
  let (s4, k4) := poolPush s3 (.leaf content)
  let (s5, k5) := poolPush s4 (.leaf content)
  let (s6, k6) := poolPush s5 (.leaf content)
  let (s7, k7) := poolPush s6 (.leaf content)
  (resizeChildren s7 (poolLen s7), [k0, k1, k2, k3, k4, k5, k6, k7])

/-- Embeds `deallocate_children_of` (src/octree/detail.rs:185-199): free every
array-listed child that might be valid, recursively, then compact the array.
The source's unbounded recursion is driven by fuel; `none` is exhaustion. -/
def deallocateChildrenOf : Nat → NState V → Nat → Option (NState V)
  | 0, _, _ => none
  | fuel + 1, s, node =>
    match (ncAt s node).content with
    | .children c =>
      let toDealloc := c.filter keyMightBeValid
      match toDealloc.foldlM
          (fun st child => (deallocateChildrenOf fuel st child).map (poolFree · child)) s with
      | none => none
      | some s1 => some (ncPut s1 node { ncAt s1 node with content := .noChildren })
    | .noChildren => some (ncPut s node { ncAt s node with content := .noChildren })

/-- One iteration of the child-inspection loop of `simplify`
(src/octree/detail.rs:205-220): `none` models the early `return false`; the
accumulator carries the candidate leaf data. -/
def simplifyStep (s : NState V) (node : Nat)
    (acc : Option (NodeContent (Brick V))) (i : Nat) : Option (NodeContent (Brick V)) :=
  match acc with
  | none => none
  | some data =>
    let childKey := ncGetIdx (ncAt s node) i
    if keyMightBeValid childKey then
      match poolGet s childKey with
      | .leaf leafData =>
        match data with
        | .leaf d => if d = leafData then some (.leaf d) else none
        | _ => some (.leaf leafData)
      | _ => none
    else none

/-- Embeds `simplify` (src/octree/update.rs path, src/octree/detail.rs:202-227):
collapse a node whose eight children are live equal-brick leaves into a leaf,
deallocating the children; returns whether it collapsed. -/
def simplifyB (fuel : Nat) (s : NState V) (node : Nat) : Option (Bool × NState V) :=
  if keyMightBeValid node then
    match (List.range 8).foldl (simplifyStep s node) (some .nothing) with
    | some data =>
      match deallocateChildrenOf fuel (poolSet s node data) node with
      | none => none
      | some s1 => some (true, s1)
    | none => some (false, s)
  else some (false, s)

/-- One iteration of the counting loop of `count_cached_children`
(src/octree/detail.rs:232-245). -/
def countStep (s : NState V) (node : Nat) (acc i : Nat) : Nat :=
  let childKey := ncGetIdx (ncAt s node) i
  if keyMightBeValid childKey then
    match poolGet s childKey with
    | .leaf _ => acc + 1
    | .internal c => acc + c
    | .nothing => acc
  else acc

/-- Embeds `count_cached_children` (src/octree/detail.rs:230-247).  Note a
`Leaf` child contributes `1` to the count. -/
def countCachedChildren (s : NState V) (node : Nat) : Nat :=
  (List.range 8).foldl (countStep s node) 0

/-- Embeds the brick-level `matrix_update_fn` closure of `insert_at_lod`
(src/octree/update.rs:110-128).  For `1 < insert_size < DIM` the source skips
by `mat_index.x` on all three axes (the `y` and `z` iterators reuse
`mat_index.x`, src/octree/update.rs:118-121); this is embedded faithfully. -/
def matrixUpdateFn (DIM insertSize : Nat) (data : V) (matIdx : V3n) (d : Brick V) : Brick V :=
  if insertSize = 1 then brickSetCell d matIdx data
  else if insertSize < DIM then
    let m := matIdx.cutEachComponent (DIM - insertSize)
    brickWriteRegion d m.x m.x m.x insertSize data
  else d

/-- Embeds the descent loop of the brick `insert_at_lod`
(src/octree/update.rs:38-151).  The stack pairs each node key with its bounds;
its head is the deepest node.  On `break` the state, the stack and
`added_nodes_count` are handed to the post-pass. -/
def insertLoopB (DIM : Nat) (p : V3n) (insertSize : Nat) (data : V) :
    Nat → NState V → List (Nat × Cube) → LoopOut (NState V) (List (Nat × Cube) × Nat)
  | 0, _, _ => .fuelOut
  | fuel + 1, s, stack =>
    match stack with
    | [] => .panic
    | (k, bounds) :: _ =>
      match childOctantForB bounds p with
      | none => .panic
      | some octant =>
        if max insertSize DIM < bounds.size then
          let ck := ncGetIdx (ncAt s k) octant
          if keyMightBeValid ck then
            insertLoopB DIM p insertSize data fuel s ((ck, bounds.childBoundsFor octant) :: stack)
          else
            let isFullMatch := isAll (poolGet s k) data
            if (poolGet s k).isLeaf && isFullMatch then
              -- the leaf already holds the data everywhere (src/octree/update.rs:61-64)
              .done s (stack, 0)
            else if (poolGet s k).isLeaf then
              match poolGet s k with
              | .leaf b =>
                -- refine the leaf into eight uniform children (src/octree/update.rs:65-84)
                let pr := makeUniformChildrenB s b
                let s2 := poolSet pr.1 k (.internal 0)
                let s3 := ncPut s2 k { ncAt s2 k with content := .children pr.2 }
                insertLoopB DIM p insertSize data fuel s3
                  ((ncGetIdx (ncAt s3 k) octant, bounds.childBoundsFor octant) :: stack)
              | _ => .panic
            else
              -- allocate a fresh Internal(0) child (src/octree/update.rs:85-106)
              let s1 := match poolGet s k with
                | .nothing => poolSet s k (.internal 0)
                | _ => s
              let pr := poolPush s1 (.internal 0)
              let s3 := resizeChildren pr.1 (poolLen pr.1)
              let s4 := ncSetIdx s3 k octant pr.2
              insertLoopB DIM p insertSize data fuel s4
                ((pr.2, bounds.childBoundsFor octant) :: stack)
        else
          -- the brick level (src/octree/update.rs:108-150)
          let mi := matIndex DIM bounds p
          match poolGet s k with
          | .leaf d =>
            .done (poolSet s k (.leaf (matrixUpdateFn DIM insertSize data mi d)))
              (stack, insertSize ^ 3)
          | _ =>
            if insertSize = DIM ∨ bounds.size ≤ insertSize then
              let s1 := poolSet s k (leafFrom DIM data)
              match deallocateChildrenOf fuel s1 k with
              | none => .fuelOut
              | some s2 => .done s2 (stack, bounds.size ^ 3)
            else
              .done
                (poolSet s k
                  (.leaf (matrixUpdateFn DIM insertSize data mi (uniformBrick DIM default))))
                (stack, bounds.size ^ 3)

/-- Embeds the post-pass of the brick `insert_at_lod`
(src/octree/update.rs:153-175): walk the stack deepest-first, simplifying
while possible, then update each node's cached count. -/
def insertPostPass (fuel added : Nat) :
    NState V → List (Nat × Cube) → Bool → Option (NState V)
  | s, [], _ => some s
  | s, (k, bounds) :: rest, simplifyable =>
    match (if simplifyable then simplifyB fuel s k else some (false, s)) with
    | none => none
    | some (nextFlag, s1) =>
      let s2 := match poolGet s1 k with
        | .nothing => poolSet s1 k (.internal (countCachedChildren s1 k))
        | .internal c => poolSet s1 k (.internal (min (c + added) (bounds.size ^ 3)))
        | .leaf _ => s1
      insertPostPass fuel added s2 rest nextFlag

/-- Embeds the brick `Octree::insert_at_lod` (src/octree/update.rs:22-177).
Note there is no validation of `insert_size`. -/
def insertAtLodB (DIM : Nat) (s : NState V) (p : V3n) (insertSize : Nat) (data : V)
    (fuel : Nat) : OpOut (NState V) :=
  let rootBounds := Cube.rootBounds s.octreeSize
  if !boundContains rootBounds p then .err (.invalidPosition p.x p.y p.z) s
  else
    match insertLoopB DIM p insertSize data fuel s [(rootNodeKey, rootBounds)] with
    | .done s1 (stack, added) =>
      match insertPostPass fuel added s1 stack s1.autoSimplify with
      | some s2 => .ok s2
      | none => .fuelOut
    | .panic => .panic
    | .fuelOut => .fuelOut

/-- Embeds the brick `Octree::insert` (src/octree/update.rs:14-16). -/
def insertB (DIM : Nat) (s : NState V) (p : V3n) (data : V) (fuel : Nat) : OpOut (NState V) :=
  insertAtLodB DIM s p 1 data fuel

/-- Embeds the loop of the brick `clear_at_lod` (src/octree/update.rs:205-293).
The `octant` argument carries `target_child_octant` across iterations
(initially 9).  On `break` the state, the stack and `removed_nodes_count` are
handed to the post-pass. -/
def clearLoopB (DIM : Nat) (p : V3n) (clearSize : Nat) :
    Nat → NState V → List (Nat × Cube) → Nat → LoopOut (NState V) (List (Nat × Cube) × Nat)
  | 0, _, _, _ => .fuelOut
  | fuel + 1, s, stack, octant =>
    match stack with
    | [] => .panic
    | (k, bounds) :: _ =>
      if max clearSize DIM < bounds.size then
        match childOctantForB bounds p with
        | none => .panic
        | some newOctant =>
          let ck := ncGetIdx (ncAt s k) newOctant
          if keyMightBeValid ck then
            clearLoopB DIM p clearSize fuel s ((ck, bounds.childBoundsFor newOctant) :: stack)
              newOctant
          else if (poolGet s k).isLeaf then
            match poolGet s k with
            | .leaf b =>
              -- refine the leaf (src/octree/update.rs:225-242)
              let pr := makeUniformChildrenB s b
              let s2 := poolSet pr.1 k (.internal (bounds.size ^ 3))
              let s3 := ncPut s2 k { ncAt s2 k with content := .children pr.2 }
              clearLoopB DIM p clearSize fuel s3
                ((ncGetIdx (ncAt s3 k) newOctant, bounds.childBoundsFor newOctant) :: stack)
                newOctant
            | _ => .panic
          else
            -- the child never existed: nothing to do (src/octree/update.rs:243-247)
            .done s (stack, 0)
      else
        let mi := matIndex DIM bounds p
        if clearSize = 1 then
          -- reset one voxel (src/octree/update.rs:253-259)
          match poolGet s k with
          | .leaf d => .done (poolSet s k (.leaf (brickSetCell d mi default))) (stack, 1)
          | _ => .panic
        else if clearSize < DIM then
          -- reset a sub-region, with the correct per-axis skips
          -- (src/octree/update.rs:260-274)
          match poolGet s k with
          | .leaf d =>
            let m := mi.cutEachComponent (DIM - clearSize)
            .done (poolSet s k (.leaf (brickWriteRegion d m.x m.y m.z clearSize default)))
              (stack, clearSize ^ 3)
          | _ => .panic
        else
          -- node-level clear (src/octree/update.rs:275-290)
          match deallocateChildrenOf fuel s k with
          | none => .fuelOut
          | some s1 =>
            if 2 ≤ stack.length ∧ octant < 9 then
              let s2 := poolFree s1 k
              match stack.get? 1 with
              | some (pk, _) =>
                .done (ncSetIdx s2 pk octant keyNoneValue) (stack, bounds.size ^ 3)
              | none => .panic
            else
              .done (poolSet s1 k .nothing) (stack, bounds.size ^ 3)

/-- Embeds the post-pass of the brick `clear_at_lod`
(src/octree/update.rs:295-320): the deepest stack entry is popped, then every
remaining entry's cached count is decremented (flipping to `Nothing` when the
subtraction would not stay positive). -/
def clearPostPass (removed : Nat) : NState V → List (Nat × Cube) → NState V
  | s, [] => s
  | s, (k, _) :: rest =>
    let s1 := match poolGet s k with
      | .nothing =>
        poolSet s k
          (if !ncIsEmpty (ncAt s k) then .internal (countCachedChildren s k) else .nothing)
      | .internal c => poolSet s k (if removed < c then .internal (c - removed) else .nothing)
      | .leaf _ => s
    clearPostPass removed s1 rest

/-- Embeds the brick `Octree::clear_at_lod` (src/octree/update.rs:187-322).
Note there is no validation of `clear_size`. -/
def clearAtLodB (DIM : Nat) (s : NState V) (p : V3n) (clearSize : Nat) (fuel : Nat) :
    OpOut (NState V) :=
  let rootBounds := Cube.rootBounds s.octreeSize
  if !boundContains rootBounds p then .err (.invalidPosition p.x p.y p.z) s
  else
    match clearLoopB DIM p clearSize fuel s [(rootNodeKey, rootBounds)] 9 with
    | .done s1 (stack, removed) => .ok (clearPostPass removed s1 stack.tail)
    | .panic => .panic
    | .fuelOut => .fuelOut

/-- Embeds the brick `Octree::clear` (src/octree/update.rs:180-182). -/
def clearB (DIM : Nat) (s : NState V) (p : V3n) (fuel : Nat) : OpOut (NState V) :=
  clearAtLodB DIM s p 1 fuel

/-- Modelled from the spec (§4.D): the descent of the brick engine `get`
(the function itself is in the repository's `octree/mod.rs`, not under src/):
descend through internal nodes along `child_octant_for` until a leaf or a
sentinel child link; at a leaf return the brick cell at `mat_index`, absent
when its alpha channel is 0. -/
def getLoopB (DIM : Nat) (alphaOf : V → Nat) (p : V3n) :
    Nat → NState V → Nat → Cube → GetRes V
  | 0, _, _, _ => .fuelOut
  | fuel + 1, s, k, bounds =>
    match poolGet s k with
    | .nothing => .absent
    | .leaf b =>
      let v := brickGetCell b (matIndex DIM bounds p)
      if alphaOf v = 0 then .absent else .found v
    | .internal _ =>
      match childOctantForB bounds p with
      | none => .panic
      | some octant =>
        let ck := ncGetIdx (ncAt s k) octant
        if keyMightBeValid ck then getLoopB DIM alphaOf p fuel s ck (bounds.childBoundsFor octant)
        else .absent

/-- Modelled from the spec (§4.D): the brick engine `get`; out-of-bounds
positions yield absent. -/
def getNew (DIM : Nat) (alphaOf : V → Nat) (s : NState V) (p : V3n) (fuel : Nat) : GetRes V :=
  if !boundContains (Cube.rootBounds s.octreeSize) p then .absent
  else getLoopB DIM alphaOf p fuel s rootNodeKey (Cube.rootBounds s.octreeSize)

/-- Modelled from the spec (§4.D Construction): `new(root_node_dimension)`
validates the size, allocates slot 0 as `Nothing`, `auto_simplify` on. -/
def newOctreeB (V : Type) (DIM rootNodeDimension : Nat) : Except OctreeError (NState V) :=
  if sizeCheckFails rootNodeDimension then .error (.invalidNodeSize rootNodeDimension)
  else .ok { autoSimplify := true, nodes := [.nothing], freeList := [],
             nodeChildren := [ncNew keyNoneValue], octreeSize := rootNodeDimension * DIM,
             rootNodeDimension := rootNodeDimension }

end New

/-! ## The ray-cast engine, src/octree/raytracing/raytracing_on_cpu.rs

The source computes over `f32`; the embedding computes over `ℚ`.  Every
concrete input appearing in a theorem keeps all intermediate values dyadic
rationals of tiny magnitude, which f32 represents and operates on exactly, so
the embedded run coincides with the source's run on that input. -/

/-- Rational 3-vectors (`V3c<f32>`). -/
abbrev V3q := V3 ℚ

instance : Add V3q := ⟨fun a b => ⟨a.x + b.x, a.y + b.y, a.z + b.z⟩⟩

instance : Sub V3q := ⟨fun a b => ⟨a.x - b.x, a.y - b.y, a.z - b.z⟩⟩

instance : HMul V3q ℚ V3q := ⟨fun a k => ⟨a.x * k, a.y * k, a.z * k⟩⟩

/-- `V3c::unit(scale)` (src/spatial/math/vector.rs:16-22). -/
def v3qUnit (k : ℚ) : V3q := ⟨k, k, k⟩

/-- `V3c::dot` (src/spatial/math/vector.rs:74-76). -/
def V3.dot (a b : V3q) : ℚ := a.x * b.x + a.y * b.y + a.z * b.z

/-- The conversion `V3c<u32> → V3c<f32>` (src/spatial/math/vector.rs:177-183);
exact for the small integers appearing here. -/
def v3qOfN (a : V3n) : V3q := ⟨(a.x : ℚ), (a.y : ℚ), (a.z : ℚ)⟩

/-- Rust's `as i32` cast from f32: truncation toward zero. -/
def ratTrunc (q : ℚ) : Int := if q < 0 then -Int.floor (-q) else Int.floor q

/-- `f32::round`: round half away from zero (src/spatial/math/vector.rs:209-231
uses it for the `f32 → i32` and `f32 → u32` vector conversions). -/
def ratRound (q : ℚ) : Int := if q < 0 then -Int.floor (-q + 1 / 2) else Int.floor (q + 1 / 2)

/-- `round() as u32`: negative values saturate to 0. -/
def ratRoundToNat (q : ℚ) : Nat := (ratRound q).toNat

/-- `f32::copysign(a, b)`: the magnitude of `a` with the sign of `b` (the
embedded inputs never produce a negative-zero `b`). -/
def copysignQ (a b : ℚ) : ℚ := if b < 0 then -|a| else |a|

/-- Embeds `Ray` (spec §4.E): origin and direction. -/
structure RayQ where
  origin : V3q
  direction : V3q
deriving DecidableEq, Repr

/-- Modelled from the spec (§4.E): `ray.point_at(d) = origin + direction·d`. -/
def RayQ.pointAt (r : RayQ) (d : ℚ) : V3q := r.origin + r.direction * d

/-- Embeds `CubeHit` (spec §4.A): `impact_distance` is `None` iff the ray
origin lies strictly inside the cube. -/
structure CubeHit where
  impactDistance : Option ℚ
  exitDistance : ℚ
  impactNormal : V3q
deriving DecidableEq, Repr

/-- Modelled from the spec (§4.A): `plane_line_intersection` returns the
signed distance along the line to the plane, or `None` if the line is
parallel to the plane. -/
def planeLineIntersection (pointOnPlane planeNormal lineOrigin lineDirection : V3q) :
    Option ℚ :=
  let denom := V3.dot lineDirection planeNormal
  if denom = 0 then none
  else some (V3.dot (pointOnPlane - lineOrigin) planeNormal / denom)

/-- Modelled from the spec (§4.A): `Cube::midpoint`. -/
def cubeMidQ (c : Cube) : V3q := v3qOfN c.minPosition + v3qUnit ((c.size : ℚ) / 2)

/-- Modelled from the spec (§3/§4.A): `Cube::contains_point` over the
half-open region `[min, min+size)`. -/
def containsPointQ (c : Cube) (p : V3q) : Bool :=
  decide ((c.minPosition.x : ℚ) ≤ p.x ∧ p.x < (c.minPosition.x : ℚ) + (c.size : ℚ) ∧
    (c.minPosition.y : ℚ) ≤ p.y ∧ p.y < (c.minPosition.y : ℚ) + (c.size : ℚ) ∧
    (c.minPosition.z : ℚ) ≤ p.z ∧ p.z < (c.minPosition.z : ℚ) + (c.size : ℚ))

/-- Modelled from the spec (§3/§9): `hash_region` over real-valued local
points, with inclusive `>=` against `size/2`. -/
def hashRegionQ (p : V3q) (size : ℚ) : Nat :=
  (if size / 2 ≤ p.x then 1 else 0) + (if size / 2 ≤ p.z then 2 else 0) +
    (if size / 2 ≤ p.y then 4 else 0)

/-- The slab data of one axis of a ray–cube intersection: `none` means the
axis already rules the hit out, `some none` an unconstrained axis (zero
direction component with the origin inside the slab), `some (some (tlo, thi))`
the entry/exit parameters on that axis. -/
def axisSlab (minv size o d : ℚ) : Option (Option (ℚ × ℚ)) :=
  if d = 0 then (if o < minv ∨ minv + size < o then none else some none)
  else
    let t1 := (minv - o) / d
    let t2 := (minv + size - o) / d
    some (some (min t1 t2, max t1 t2))

/-- `-1` or `1` following the sign of `d` (used only for the impact normal). -/
def signQ (d : ℚ) : ℚ := if d < 0 then -1 else 1

/-- Modelled from the spec (§4.A): `Cube::intersect_ray` by the slab method —
`None` iff the ray misses the cube; `impact_distance` is `None` iff the origin
lies strictly inside; `exit_distance` is the exit parameter; `impact_normal`
points against the ray on the entry axis. -/
def intersectRayQ (c : Cube) (ray : RayQ) : Option CubeHit :=
  match axisSlab (c.minPosition.x : ℚ) (c.size : ℚ) ray.origin.x ray.direction.x,
      axisSlab (c.minPosition.y : ℚ) (c.size : ℚ) ray.origin.y ray.direction.y,
      axisSlab (c.minPosition.z : ℚ) (c.size : ℚ) ray.origin.z ray.direction.z with
  | some ax, some ay, some az =>
    let lows := ([ax, ay, az].filterMap (fun o => o.map Prod.fst))
    let highs := ([ax, ay, az].filterMap (fun o => o.map Prod.snd))
    match lows.max?, highs.min? with
    | some tmin, some tmax =>
      if tmax < tmin ∨ tmax < 0 then none
      else
        let nrm : V3q :=
          if ax.any (fun pr => pr.1 = tmin) then ⟨-signQ ray.direction.x, 0, 0⟩
          else if ay.any (fun pr => pr.1 = tmin) then ⟨0, -signQ ray.direction.y, 0⟩
          else ⟨0, 0, -signQ ray.direction.z⟩
        some { impactDistance := if 0 ≤ tmin then some tmin else none,
               exitDistance := tmax, impactNormal := nrm }
    | _, _ => none
  | _, _, _ => none

/-- `FLOAT_ERROR_TOLERANCE` (spec §4.E/§9; the constant's definition is not
under src/), modelled as `10⁻⁵`.  Only its sign laws matter to the theorems
below. -/
def floatErrorTolerance : ℚ := 1 / 100000

namespace New

/-- The traversal frame `NodeStackItem`
(src/octree/raytracing/raytracing_on_cpu.rs:9-43, declaration in
`raytracing/types.rs`). -/
structure NodeStackItem where
  boundsIntersection : CubeHit
  bounds : Cube
  node : Nat
  targetOctant : Nat
  childCenter : V3q
deriving DecidableEq, Repr

/-- Embeds `NodeStackItem::new` (raytracing_on_cpu.rs:10-26). -/
def NodeStackItem.make (bounds : Cube) (bi : CubeHit) (node targetOctant : Nat) :
    NodeStackItem :=
  { boundsIntersection := bi, bounds := bounds, node := node, targetOctant := targetOctant,
    childCenter := v3qOfN bounds.minPosition + v3qUnit ((bounds.size : ℚ) / 4) +
      v3qOfN (offsetRegion targetOctant) * ((bounds.size : ℚ) / 2) }

/-- Embeds `NodeStackItem::add_point` (raytracing_on_cpu.rs:28-34). -/
def NodeStackItem.addPoint (it : NodeStackItem) (p : V3q) : NodeStackItem :=
  let c := it.childCenter + p
  { it with
      childCenter := c,
      targetOctant := hashRegionQ (c - v3qOfN it.bounds.minPosition) (it.bounds.size : ℚ) }

/-- Embeds `NodeStackItem::target_bounds` (raytracing_on_cpu.rs:36-38). -/
def NodeStackItem.targetBounds (it : NodeStackItem) : Cube :=
  it.bounds.childBoundsFor it.targetOctant

/-- Embeds `NodeStackItem::contains_target_center` (raytracing_on_cpu.rs:40-42). -/
def NodeStackItem.containsTargetCenter (it : NodeStackItem) : Bool :=
  containsPointQ it.bounds it.childCenter

/-- Embeds `get_step_to_next_sibling` (raytracing_on_cpu.rs:48-101).  Each of
the three `plane_line_intersection(..).unwrap()` calls panics when the
corresponding direction component is zero (a parallel plane); `none` models
that panic. -/
def getStepToNextSibling (current : Cube) (ray : RayQ) : Option V3q :=
  let midpoint := cubeMidQ current
  let half := (current.size : ℚ) / 2
  let refPoint := midpoint +
    ⟨copysignQ half ray.direction.x, copysignQ half ray.direction.y,
      copysignQ half ray.direction.z⟩
  match planeLineIntersection refPoint ⟨1, 0, 0⟩ ray.origin ray.direction,
      planeLineIntersection refPoint ⟨0, 1, 0⟩ ray.origin ray.direction,
      planeLineIntersection refPoint ⟨0, 0, 1⟩ ray.origin ray.direction with
  | some xd, some yd, some zd =>
    let minD := min (min xd yd) zd
    some
      ⟨if |minD - xd| < floatErrorTolerance then copysignQ (current.size : ℚ) ray.direction.x
          else 0,
        if |minD - yd| < floatErrorTolerance then copysignQ (current.size : ℚ) ray.direction.y
          else 0,
        if |minD - zd| < floatErrorTolerance then copysignQ (current.size : ℚ) ray.direction.z
          else 0⟩
  | _, _, _ => none

/-- Outcome of the brick march `traverse_matrix`. -/
inductive MatHit where
  | hitAt (i : V3n)
  | miss
  | panic
  | fuelOut
deriving DecidableEq, Repr

variable {V : Type} [DecidableEq V] [Inhabited V]

/-- The loop of `traverse_matrix` (raytracing_on_cpu.rs:123-144), fuelled. -/
def traverseMatrixLoop (DIM : Nat) (alphaOf : V → Nat) (ray : RayQ) (matrix : Brick V) :
    Nat → V3 Int → Cube → MatHit
  | 0, _, _ => .fuelOut
  | fuel + 1, ci, currentBound =>
    if ci.x < 0 ∨ (DIM : Int) ≤ ci.x ∨ ci.y < 0 ∨ (DIM : Int) ≤ ci.y ∨
        ci.z < 0 ∨ (DIM : Int) ≤ ci.z then
      .miss
    else if 0 < alphaOf (brickGetCell matrix ⟨ci.x.toNat, ci.y.toNat, ci.z.toNat⟩) then
      .hitAt ⟨ci.x.toNat, ci.y.toNat, ci.z.toNat⟩
    else
      match getStepToNextSibling currentBound ray with
      | none => .panic
      | some step =>
        traverseMatrixLoop DIM alphaOf ray matrix fuel
          ⟨ci.x + ratRound step.x, ci.y + ratRound step.y, ci.z + ratRound step.z⟩
          { currentBound with
              minPosition :=
                ⟨ratRoundToNat ((currentBound.minPosition.x : ℚ) + step.x),
                  ratRoundToNat ((currentBound.minPosition.y : ℚ) + step.y),
                  ratRoundToNat ((currentBound.minPosition.z : ℚ) + step.z)⟩ }

/-- Embeds `traverse_matrix` (raytracing_on_cpu.rs:103-145): clamp the entry
point to a brick index, then march cell to cell. -/
def traverseMatrix (DIM : Nat) (alphaOf : V → Nat) (ray : RayQ) (matrix : Brick V)
    (bounds : Cube) (intersection : CubeHit) (fuel : Nat) : MatHit :=
  let pos := ray.pointAt (intersection.impactDistance.getD 0) - v3qOfN bounds.minPosition
  let ci : V3 Int :=
    ⟨min (max (ratTrunc pos.x) 0) ((DIM : Int) - 1),
      min (max (ratTrunc pos.y) 0) ((DIM : Int) - 1),
      min (max (ratTrunc pos.z) 0) ((DIM : Int) - 1)⟩
  let currentBound : Cube :=
    { minPosition := bounds.minPosition + ⟨ci.x.toNat, ci.y.toNat, ci.z.toNat⟩,
      size := bounds.size / DIM }
  traverseMatrixLoop DIM alphaOf ray matrix fuel ci currentBound

/-- Outcome of `get_by_ray`: a hit (with the voxel value behind the returned
reference, the collision point and the normal), a miss, a Rust panic, or fuel
exhaustion. -/
inductive RayRes (V : Type) where
  | hit (v : V) (point normal : V3q)
  | miss
  | panic
  | fuelOut
deriving DecidableEq, Repr

/-- The main traversal loop of `get_by_ray` (raytracing_on_cpu.rs:201-295),
fuelled; `mfuel` bounds each inner brick march. -/
def getByRayLoop (DIM : Nat) (alphaOf : V → Nat) (ray : RayQ) (mfuel : Nat) :
    Nat → NState V → List NodeStackItem → ℚ → RayRes V
  | 0, _, _, _ => .fuelOut
  | fuel + 1, s, stack, currentD =>
    match stack with
    | [] => .miss
    | top :: rest =>
      let currentBounds := top.bounds
      let cbri := top.boundsIntersection
      if !top.containsTargetCenter ||
          (match poolGet s top.node with
            | .nothing => true
            | .internal count => count = 0
            | .leaf _ => false) then
        -- POP (raytracing_on_cpu.rs:211-220)
        match rest with
        | [] => getByRayLoop DIM alphaOf ray mfuel fuel s [] cbri.exitDistance
        | parent :: rr =>
          match getStepToNextSibling top.bounds ray with
          | none => .panic
          | some stepVec =>
            getByRayLoop DIM alphaOf ray mfuel fuel s (parent.addPoint stepVec :: rr)
              cbri.exitDistance
      else if !keyMightBeValid top.node then .panic  -- the assert at line 223
      else
        match poolGet s top.node with
        | .leaf mat =>
          match traverseMatrix DIM alphaOf ray mat currentBounds cbri mfuel with
          | .hitAt idx =>
            -- reconstruct the hit from the sub-cube (raytracing_on_cpu.rs:232-244)
            let rr2 := (intersectRayQ
              { minPosition := currentBounds.minPosition + idx,
                size := currentBounds.size / DIM } ray).getD cbri
            .hit (brickGetCell mat idx) (ray.pointAt (rr2.impactDistance.getD 0))
              rr2.impactNormal
          | .miss =>
            -- POP (raytracing_on_cpu.rs:245-254)
            match rest with
            | [] => getByRayLoop DIM alphaOf ray mfuel fuel s [] cbri.exitDistance
            | parent :: rr =>
              match getStepToNextSibling top.bounds ray with
              | none => .panic
              | some stepVec =>
                getByRayLoop DIM alphaOf ray mfuel fuel s (parent.addPoint stepVec :: rr)
                  cbri.exitDistance
          | .panic => .panic
          | .fuelOut => .fuelOut
        | _ =>
          let currentD2 := cbri.impactDistance.getD currentD
          let targetOctant := top.targetOctant
          let targetChild := ncGetIdx (ncAt s top.node) targetOctant
          let targetBounds := currentBounds.childBoundsFor targetOctant
          let targetIsEmpty := !keyMightBeValid targetChild ||
            (match poolGet s targetChild with
              | .internal count => count = 0
              | .leaf _ => false
              | .nothing => true)
          match intersectRayQ targetBounds ray with
          | some th =>
            if !targetIsEmpty then
              -- PUSH (raytracing_on_cpu.rs:270-282)
              let d2 := th.impactDistance.getD currentD2
              let childTargetOctant :=
                hashRegionQ (ray.pointAt d2 - v3qOfN targetBounds.minPosition)
                  (targetBounds.size : ℚ)
              getByRayLoop DIM alphaOf ray mfuel fuel s
                (NodeStackItem.make targetBounds th targetChild childTargetOctant ::
                  top :: rest) d2
            else
              -- ADVANCE (raytracing_on_cpu.rs:283-293)
              match getStepToNextSibling top.targetBounds ray with
              | none => .panic
              | some stepVec =>
                getByRayLoop DIM alphaOf ray mfuel fuel s (top.addPoint stepVec :: rest)
                  th.exitDistance
          | none =>
            -- ADVANCE with no target hit
            match getStepToNextSibling top.targetBounds ray with
            | none => .panic
            | some stepVec =>
              getByRayLoop DIM alphaOf ray mfuel fuel s (top.addPoint stepVec :: rest)
                currentD2

/-- Embeds `get_by_ray` (raytracing_on_cpu.rs:147-297). -/
def getByRay (DIM : Nat) (alphaOf : V → Nat) (s : NState V) (ray : RayQ)
    (fuel mfuel : Nat) : RayRes V :=
  let rootBounds := Cube.rootBounds (s.rootNodeDimension * DIM)
  match intersectRayQ rootBounds ray with
  | none => .miss
  | some rootHit =>
    let currentD := rootHit.impactDistance.getD 0
    match poolGet s rootNodeKey with
    | .leaf mat =>
      match traverseMatrix DIM alphaOf ray mat rootBounds rootHit mfuel with
      | .hitAt idx =>
        let rr2 := (intersectRayQ
          { minPosition := rootBounds.minPosition + idx, size := rootBounds.size / DIM }
          ray).getD rootHit
        .hit (brickGetCell mat idx) (ray.pointAt (rr2.impactDistance.getD 0)) rr2.impactNormal
      | .miss => .miss
      | .panic => .panic
      | .fuelOut => .fuelOut
    | _ =>
      let targetOctant := hashRegionQ (ray.pointAt currentD - v3qOfN rootBounds.minPosition)
        ((s.rootNodeDimension : ℚ) * (DIM : ℚ))
      getByRayLoop DIM alphaOf ray mfuel fuel s
        [NodeStackItem.make rootBounds rootHit rootNodeKey targetOctant] currentD

end New

/-! ## Claim-support definitions: concrete states and predicates -/

/-- The state a mutating operation returned, or a fallback. -/
def okState {σ : Type} (r : OpOut σ) (dflt : σ) : σ :=
  match r with
  | .ok s => s
  | _ => dflt

/-- `Octree::<f32/u32>::new(2)` of the legacy engine (values are `Nat` here):
the root at slot 0 with bounds `{0, 2}`. -/
def oldTree2 : Old.OState Nat :=
  { autoSimplify := true, rootNode := some 0,
    slots := [{ bounds := ⟨⟨0, 0, 0⟩, 2⟩, content := none,
                children := List.replicate 8 none }],
    freeList := [] }

/-- `oldTree2` after `insert((1,1,1), 5)`. -/
def c1AfterFirst : Old.OState Nat := okState (Old.insert oldTree2 ⟨1, 1, 1⟩ 5 4) oldTree2

/-- `c1AfterFirst` after `insert((2,2,2), 6)` — a position with every
coordinate equal to the root size 2. -/
def c1AfterSecond : Old.OState Nat := okState (Old.insert c1AfterFirst ⟨2, 2, 2⟩ 6 4) oldTree2

/-- `oldTree2` after `insert((2,2,2), 5)`. -/
def c7After : Old.OState Nat := okState (Old.insert oldTree2 ⟨2, 2, 2⟩ 5 4) oldTree2

/-- The eight corner positions of a side-2 cube. -/
def cornerPoints : List V3n :=
  [⟨0, 0, 0⟩, ⟨0, 0, 1⟩, ⟨0, 1, 0⟩, ⟨0, 1, 1⟩, ⟨1, 0, 0⟩, ⟨1, 0, 1⟩, ⟨1, 1, 0⟩, ⟨1, 1, 1⟩]

/-- `oldTree2` after inserting value 5 at all eight corner positions: the root
has eight live leaf children all holding 5. -/
def c3OldState : Old.OState Nat :=
  cornerPoints.foldl (fun s p => okState (Old.insert s p 5 4) s) oldTree2

/-- `oldTree2` after `insert((0,0,0), 5)` (used for the legacy root-free
counterexample). -/
def c8OldState : Old.OState Nat := okState (Old.insert oldTree2 ⟨0, 0, 0⟩ 5 4) oldTree2

/-- `c8OldState` after `clear_at_lod((0,0,0), 2)` — a node-level clear whose
target is the root. -/
def c8OldCleared : Old.OState Nat := okState (Old.clearAtLod c8OldState ⟨0, 0, 0⟩ 2 4) oldTree2

/-- The brick engine `Octree::<_, 4>::new(1)`: `DIM = 4`, one root brick,
`octree_size = 4`. -/
def brickTreeD4 : New.NState Nat :=
  { autoSimplify := true, nodes := [.nothing], freeList := [],
    nodeChildren := [New.ncNew New.keyNoneValue], octreeSize := 4, rootNodeDimension := 1 }

/-- `brickTreeD4` after `insert_at_lod((0,2,0), 2, 5)`. -/
def c2After : New.NState Nat := okState (New.insertAtLodB 4 brickTreeD4 ⟨0, 2, 0⟩ 2 5 6) brickTreeD4

/-- The brick engine `Octree::<_, 2>::new(2)`: `DIM = 2`,
`octree_size = 4`. -/
def brickTreeD2 : New.NState Nat :=
  { autoSimplify := true, nodes := [.nothing], freeList := [],
    nodeChildren := [New.ncNew New.keyNoneValue], octreeSize := 4, rootNodeDimension := 2 }

/-- `brickTreeD2` after `insert((0,0,0), 5)`. -/
def c4AfterOne : New.NState Nat := okState (New.insertB 2 brickTreeD2 ⟨0, 0, 0⟩ 5 6) brickTreeD2

/-- `c4AfterOne` after a second `insert((0,0,0), 5)` of the same voxel. -/
def c4AfterTwo : New.NState Nat := okState (New.insertB 2 c4AfterOne ⟨0, 0, 0⟩ 5 6) brickTreeD2

/-- The brick engine `Octree::<_, 1>::new(4)`: a pure octree of side 4. -/
def brickTreeD1S4 : New.NState Nat :=
  { autoSimplify := true, nodes := [.nothing], freeList := [],
    nodeChildren := [New.ncNew New.keyNoneValue], octreeSize := 4, rootNodeDimension := 4 }

/-- `brickTreeD1S4` after `insert_at_lod((0,0,0), 3, 7)` — a size argument
that is not a power of two. -/
def c6After : New.NState Nat := okState (New.insertAtLodB 1 brickTreeD1S4 ⟨0, 0, 0⟩ 3 7 6) brickTreeD1S4

/-- `c6After` after `clear_at_lod((0,0,0), 3)` — again a size argument that
is not a power of two. -/
def c6Cleared : New.NState Nat := okState (New.clearAtLodB 1 c6After ⟨0, 0, 0⟩ 3 6) brickTreeD1S4

/-- The brick engine `Octree::<_, 2>::new(1)`: a single root brick of side 2. -/
def brickTreeD2S2 : New.NState Nat :=
  { autoSimplify := true, nodes := [.nothing], freeList := [],
    nodeChildren := [New.ncNew New.keyNoneValue], octreeSize := 2, rootNodeDimension := 1 }

/-- `brickTreeD2S2` after `insert((1,1,1), 5)`: the root is a leaf whose brick
holds a single non-empty voxel at index (1,1,1). -/
def c5Tree : New.NState Nat := okState (New.insertB 2 brickTreeD2S2 ⟨1, 1, 1⟩ 5 6) brickTreeD2S2

/-- A well-formed ray: unit direction along the z axis (so with zero x and y
components), entering the tree through the empty cell (0,0,0).  All of its
coordinates are dyadic rationals that f32 represents exactly. -/
def axisRay : RayQ := { origin := ⟨1 / 2, 1 / 2, -1⟩, direction := ⟨0, 0, 1⟩ }

/-- The brick engine `Octree::<_, 1>::new(2)`: a pure octree of side 2. -/
def brickTreeD1S2 : New.NState Nat :=
  { autoSimplify := true, nodes := [.nothing], freeList := [],
    nodeChildren := [New.ncNew New.keyNoneValue], octreeSize := 2, rootNodeDimension := 2 }

/-- `brickTreeD1S2` after inserting value 5 at all eight corner positions:
the root is `Internal` with eight live leaf children all holding the brick
`[[[5]]]`. -/
def c3NewState : New.NState Nat :=
  cornerPoints.foldl (fun s p => okState (New.insertB 1 s p 5 6) s) brickTreeD1S2

/-- `brickTreeD1S2` after `insert_at_lod((0,0,0), 1, 5)`: the root is
`Internal 1` with one leaf child at slot 1. -/
def c8NewInserted : New.NState Nat :=
  okState (New.insertAtLodB 1 brickTreeD1S2 ⟨0, 0, 0⟩ 1 5 6) brickTreeD1S2

/-- `c8NewInserted` after `clear_at_lod((0,0,0), 1)`. -/
def c8NewCleared : New.NState Nat :=
  okState (New.clearAtLodB 1 c8NewInserted ⟨0, 0, 0⟩ 1 6) c8NewInserted

/-- `c8NewInserted` after deallocating the children of the root (the first
half of a node-level clear targeting the root). -/
def c8NewRootDealloc : New.NState Nat :=
  (New.deallocateChildrenOf 5 c8NewInserted 0).getD c8NewInserted

/-- `c8NewInserted` after deallocating the children of the leaf node 1 (the
first half of a node-level clear targeting that non-root node). -/
def c8NewChildDealloc : New.NState Nat :=
  (New.deallocateChildrenOf 5 c8NewInserted 1).getD c8NewInserted

/-- The child key of `node` at octant `i` (the `node_children[node][i]` read
of the source). -/
def childKeyAt {V : Type} (s : New.NState V) (node i : Nat) : Nat :=
  New.ncGetIdx (New.ncAt s node) i

/-- The condition of the simplification contract, as the claim words it: all
eight children of the node exist (non-sentinel keys) and are leaves holding
one and the same brick. -/
def eightUniformLeafChildren {V : Type} (s : New.NState V) (node : Nat) : Prop :=
  ∃ b : New.Brick V, ∀ i : Fin 8,
    New.keyMightBeValid (childKeyAt s node i) = true ∧
      New.poolGet s (childKeyAt s node i) = .leaf b

/-- The claim's subtree-population contribution of the child of `node` at
octant `i` (spec I3): 0 for a missing or `Nothing` child, `c` for an
`Internal(c)` child, `DIM³` for a `Leaf` child. -/
def specChildPopulation {V : Type} (DIM : Nat) (s : New.NState V) (node i : Nat) : Nat :=
  if New.keyMightBeValid (childKeyAt s node i) then
    match New.poolGet s (childKeyAt s node i) with
    | .leaf _ => DIM ^ 3
    | .internal c => c
    | .nothing => 0
  else 0

/-- The contribution the source's `count_cached_children` adds for the child
of `node` at octant `i` (src/octree/detail.rs:232-245): 0 for a missing or
`Nothing` child, `c` for an `Internal(c)` child, `1` for a `Leaf` child. -/
def cachedChildContribution {V : Type} (s : New.NState V) (node i : Nat) : Nat :=
  if New.keyMightBeValid (childKeyAt s node i) then
    match New.poolGet s (childKeyAt s node i) with
    | .leaf _ => 1
    | .internal c => c
    | .nothing => 0
  else 0

/-- Well-formedness of the `node_children` store, true in every state the
engine builds: every entry keeps the sentinel default key and, when
materialized, an 8-slot array. -/
def ncWellFormed {V : Type} (s : New.NState V) : Bool :=
  s.nodeChildren.all fun nc =>
    decide (nc.defaultKey = New.keyNoneValue) &&
      (match nc.content with
        | .children c => decide (c.length = 8)
        | .noChildren => true)

/-- The root-preservation invariant of the brick engine: the pool is
non-empty, slot 0 (the root) is not on the free-list, and no child-key array
stores the key 0 (so no operation can ever free slot 0 through a child
link); child arrays are well-formed as in `ncWellFormed`. -/
def rootSafe {V : Type} (s : New.NState V) : Bool :=
  decide (0 < s.nodes.length) && decide (0 ∉ s.freeList) &&
    (s.nodeChildren.all fun nc =>
      decide (nc.defaultKey = New.keyNoneValue) &&
        (match nc.content with
          | .children c => decide (c.length = 8) && c.all fun k => decide (k ≠ 0)
          | .noChildren => true))

/-! ## Theorems -/

set_option maxRecDepth 100000
set_option linter.unusedSectionVars false

/-- C1: the claim states that after a successful `insert(p, v)` with `p` in
`[0, S)` and before any subsequent insert or clear at `p`, `get(p)` returns
`Some(&v)`.  This run refutes it on the code: on a side-2 tree,
`insert((1,1,1), 5)` succeeds and reads back 5, but the subsequent
`insert((2,2,2), 6)` — at a different position, every coordinate of which
equals the tree size 2 — is also accepted (the bounds check of
`Node::contains` is inclusive) and descends to the very same size-1 cell,
after which `get((1,1,1))` returns 6, not 5. -/
theorem claim1_lookup_consistency_failing_run :
    Old.insert oldTree2 ⟨1, 1, 1⟩ 5 4 = .ok c1AfterFirst ∧
      Old.get c1AfterFirst ⟨1, 1, 1⟩ 4 = .found 5 ∧
      Old.insert c1AfterFirst ⟨2, 2, 2⟩ 6 4 = .ok c1AfterSecond ∧
      (⟨2, 2, 2⟩ : V3n) ≠ ⟨1, 1, 1⟩ ∧
      Old.get c1AfterSecond ⟨1, 1, 1⟩ 4 = .found 6 ∧
      Old.get c1AfterSecond ⟨1, 1, 1⟩ 4 ≠ .found 5 :=
  ⟨rfl, by decide, rfl, by decide, by decide, by decide⟩

/-- C2: the claim states that after `insert_at_lod(anchor, k, v)` succeeds,
every lattice point of the `k³` box anchored at the clamped local index reads
back `v`.  This run refutes it on the code: on a `DIM = 4` single-brick tree,
`insert_at_lod((0,2,0), 2, 5)` succeeds, but the brick-level update skips by
`mat_index.x` on all three axes (src/octree/update.rs:118-121), writing the
box `[0,2)³` instead of `[0,2)×[2,4)×[0,2)`: the anchor `(0,2,0)` itself (and
`(1,3,1)`, also in the intended box) reads back absent, while `(0,0,0)` and
`(1,1,1)` — outside the intended box — read back 5. -/
theorem claim2_lod_insert_failing_run :
    New.insertAtLodB 4 brickTreeD4 ⟨0, 2, 0⟩ 2 5 6 = .ok c2After ∧
      New.getNew 4 id c2After ⟨0, 2, 0⟩ 6 = .absent ∧
      New.getNew 4 id c2After ⟨1, 3, 1⟩ 6 = .absent ∧
      New.getNew 4 id c2After ⟨0, 0, 0⟩ 6 = .found 5 ∧
      New.getNew 4 id c2After ⟨1, 1, 1⟩ 6 = .found 5 :=
  ⟨rfl, by decide, by decide, by decide, by decide⟩

/-- C3 counterexample: the claim states `simplify(node)` returns true iff all
eight children exist, are leaves and hold equal data.  The legacy
`Octree::simplify` (src/octree.rs:310-344) refutes the claim as stated: on a
side-2 tree whose root has eight live leaf children all holding 5, it
performs the collapse (the root becomes a leaf holding 5 with no children)
and still returns `false` (the function falls through to its final `false`;
the spec itself flags this in §9). -/
theorem claim3_counterexample_legacy_simplify :
    (Old.getNode c3OldState 0).children =
        [some 1, some 5, some 2, some 6, some 3, some 7, some 4, some 8] ∧
      ((List.range 8).all fun i =>
        (Old.getNode c3OldState (i + 1)).content == some 5) = true ∧
      (Old.simplify c3OldState (some 0)).1 = false ∧
      (Old.getNode (Old.simplify c3OldState (some 0)).2 0).content = some 5 ∧
      (Old.getNode (Old.simplify c3OldState (some 0)).2 0).children =
        List.replicate 8 none :=
  ⟨by decide, by decide, by decide, by decide, by decide⟩

/-- C4 counterexample: the claim states that after every successful operation
every `Internal(c)` node has `c` equal to the sum of its children's subtree
populations (`DIM³` per `Leaf` child), and that `count_cached_children`
computes that sum.  On a `DIM = 2`, side-4 tree, inserting the same voxel
`(0,0,0) ← 5` twice (both succeed) leaves the root as `Internal(9)`, while
the claim's sum over its children is `2³ = 8` (one leaf child) and the
helper `count_cached_children` returns `1` (it adds 1, not `DIM³`, per leaf
child, src/octree/detail.rs:236-238). -/
theorem claim4_counterexample_count_invariant :
    New.insertB 2 brickTreeD2 ⟨0, 0, 0⟩ 5 6 = .ok c4AfterOne ∧
      New.insertB 2 c4AfterOne ⟨0, 0, 0⟩ 5 6 = .ok c4AfterTwo ∧
      New.poolGet c4AfterTwo 0 = .internal 9 ∧
      specChildPopulation 2 c4AfterTwo 0 0 + specChildPopulation 2 c4AfterTwo 0 1 +
          specChildPopulation 2 c4AfterTwo 0 2 + specChildPopulation 2 c4AfterTwo 0 3 +
          specChildPopulation 2 c4AfterTwo 0 4 + specChildPopulation 2 c4AfterTwo 0 5 +
          specChildPopulation 2 c4AfterTwo 0 6 + specChildPopulation 2 c4AfterTwo 0 7 = 8 ∧
      New.countCachedChildren c4AfterTwo 0 = 1 ∧
      (9 : Nat) ≠ 8 ∧ (1 : Nat) ≠ 8 :=
  ⟨rfl, rfl, by decide, by decide, by decide, by decide, by decide⟩

/-- C5: the claim states `get_by_ray` returns normally for every well-formed
ray, including rays with zero direction components, the
`plane_line_intersection` unwraps being unreachable.  This run refutes the
claim on the code: on a `DIM = 2` single-brick tree holding one voxel at
`(1,1,1)`, the unit ray from `(1/2, 1/2, -1)` along `+z` enters the empty
brick cell `(0,0,0)`; the brick march calls `get_step_to_next_sibling`, whose
x-plane `plane_line_intersection` returns `None` (the direction's x component
is 0, parallel to the plane) and the `.unwrap()` panics
(src/octree/raytracing/raytracing_on_cpu.rs:60-66).  All intermediate values
of this run are small dyadic rationals, on which f32 arithmetic is exact. -/
theorem claim5_ray_panic_failing_run :
    New.insertB 2 brickTreeD2S2 ⟨1, 1, 1⟩ 5 6 = .ok c5Tree ∧
      V3.dot axisRay.direction axisRay.direction = 1 ∧
      planeLineIntersection ⟨1, 1, 1⟩ ⟨1, 0, 0⟩ axisRay.origin axisRay.direction = none ∧
      New.getStepToNextSibling ⟨⟨0, 0, 0⟩, 1⟩ axisRay = none ∧
      New.getByRay 2 id c5Tree axisRay 6 6 = .panic :=
  ⟨rfl, by with_unfolding_all decide, by with_unfolding_all decide,
    by with_unfolding_all decide, by with_unfolding_all decide⟩

/-- C6 counterexample: the claim states that for every size argument that is
zero or not a power of two, `insert_at_lod` and `clear_at_lod` return
`InvalidNodeSize`.  The brick engine (src/octree/update.rs:22-39,187-199)
performs no size validation at all: with the non-power-of-two size 3 both
`insert_at_lod((0,0,0), 3, 7)` and the subsequent `clear_at_lod((0,0,0), 3)`
return `Ok` and mutate the tree. -/
theorem claim6_counterexample_no_size_validation :
    sizeCheckFails 3 = true ∧
      New.insertAtLodB 1 brickTreeD1S4 ⟨0, 0, 0⟩ 3 7 6 = .ok c6After ∧
      New.getNew 1 id c6After ⟨0, 0, 0⟩ 6 = .found 7 ∧
      New.clearAtLodB 1 c6After ⟨0, 0, 0⟩ 3 6 = .ok c6Cleared ∧
      New.getNew 1 id c6Cleared ⟨0, 0, 0⟩ 6 = .absent :=
  ⟨by decide, rfl, by decide, rfl, by decide⟩

/-- C7: the claim states the mutating operations return `InvalidPosition`
exactly when some coordinate is outside `[0, S)` — in particular that a
coordinate equal to `S` is rejected — and that `get` on such a position
returns `None`.  This run refutes it on the code: the bounds checks
(`Node::contains`, src/octree.rs:27-34, and `bound_contains`,
src/octree/detail.rs:11-18) are inclusive on the upper side, so on a side-2
tree `insert((2,2,2), 5)` succeeds and `get((2,2,2))` returns `Some(5)`;
only coordinates strictly greater than `S` are rejected. -/
theorem claim7_position_validation_failing_run :
    Old.insert oldTree2 ⟨2, 2, 2⟩ 5 4 = .ok c7After ∧
      Old.get c7After ⟨2, 2, 2⟩ 4 = .found 5 ∧
      New.boundContains (Cube.rootBounds 2) ⟨2, 2, 2⟩ = true ∧
      Old.insert oldTree2 ⟨3, 0, 0⟩ 5 4 = .err (.invalidPosition 3 0 0) oldTree2 ∧
      Old.get oldTree2 ⟨3, 0, 0⟩ 4 = .absent :=
  ⟨rfl, by decide, by decide, by decide, by decide⟩

/-- C8 counterexample: the claim states the root's pool slot is never freed
by any operation.  The legacy `clear_at_lod` (src/octree.rs:399-414) refutes
it: a node-level clear whose target is the root frees the root's slot
unconditionally (src/octree.rs:405) — after `insert((0,0,0), 5)` and
`clear_at_lod((0,0,0), 2)` on a side-2 tree, slot 0 is on the free list. -/
theorem claim8_counterexample_legacy_clear_frees_root :
    c8OldState.rootNode = some 0 ∧
      Old.clearAtLod c8OldState ⟨0, 0, 0⟩ 2 4 = .ok c8OldCleared ∧
      0 ∈ c8OldCleared.freeList :=
  ⟨by decide, rfl, by decide⟩

/-! ### Shared helper lemmas

Facts about the embedded pool, child-array and traversal operations, used by
the claim theorems below. -/

section OctreeLemmas
variable {V : Type} [DecidableEq V] [Inhabited V]

theorem ncIsEmpty_iff (nc : New.NodeChildren) :
    New.ncIsEmpty nc = true ↔ nc.content = .noChildren := by
  cases h : nc.content <;> simp [New.ncIsEmpty, h]

theorem ncWF_defaultKey {s : New.NState V} (hwf : ncWellFormed s = true) (node : Nat) :
    (New.ncAt s node).defaultKey = New.keyNoneValue := by
  simp only [ncWellFormed, List.all_eq_true] at hwf
  by_cases h : node < s.nodeChildren.length
  · have hm : s.nodeChildren.getD node (New.ncNew New.keyNoneValue) ∈ s.nodeChildren := by
      rw [List.getD_eq_getElem _ _ h]
      exact List.getElem_mem h
    have := hwf _ hm
    simp only [Bool.and_eq_true, decide_eq_true_eq] at this
    exact this.1
  · simp only [New.ncAt, List.getD_eq_default _ _ (Nat.le_of_not_lt h)]
    rfl

theorem ncWF_len8 {s : New.NState V} (hwf : ncWellFormed s = true) (node : Nat)
    (c : List Nat) (hc : (New.ncAt s node).content = .children c) : c.length = 8 := by
  simp only [ncWellFormed, List.all_eq_true] at hwf
  by_cases h : node < s.nodeChildren.length
  · have hm : s.nodeChildren.getD node (New.ncNew New.keyNoneValue) ∈ s.nodeChildren := by
      rw [List.getD_eq_getElem _ _ h]
      exact List.getElem_mem h
    have h2 := (Bool.and_eq_true _ _).mp (hwf _ hm) |>.2
    rw [show s.nodeChildren.getD node (New.ncNew New.keyNoneValue) = New.ncAt s node from rfl,
      hc] at h2
    simpa using h2
  · exfalso
    rw [show New.ncAt s node = s.nodeChildren.getD node (New.ncNew New.keyNoneValue) from rfl,
      List.getD_eq_default _ _ (Nat.le_of_not_lt h)] at hc
    simp [New.ncNew] at hc

theorem keyMightBeValid_none : New.keyMightBeValid New.keyNoneValue = false := by decide

theorem simplifyStep_leaf (s : New.NState V) (node : Nat) (d : New.Brick V) (i : Nat) :
    New.simplifyStep s node (some (.leaf d)) i =
      if New.keyMightBeValid (childKeyAt s node i) = true ∧
          New.poolGet s (childKeyAt s node i) = .leaf d
        then some (.leaf d) else none := by
  simp only [New.simplifyStep, childKeyAt]
  by_cases h : New.keyMightBeValid (New.ncGetIdx (New.ncAt s node) i) = true
  · simp only [h, if_true, true_and]
    rcases hpg : New.poolGet s (New.ncGetIdx (New.ncAt s node) i) with _ | c | b2
    · simp
    · simp
    · by_cases hd : d = b2
      · subst hd; simp
      · simp [hd, Ne.symm hd]
  · simp [h]

theorem simplifyFold_none (s : New.NState V) (node : Nat) (l : List Nat) :
    List.foldl (New.simplifyStep s node) none l = none := by
  induction l with
  | nil => rfl
  | cons a t ih => simpa [New.simplifyStep] using ih

theorem simplifyFold_leaf (s : New.NState V) (node : Nat) (d : New.Brick V) (l : List Nat) :
    List.foldl (New.simplifyStep s node) (some (.leaf d)) l =
      if (∀ i ∈ l, New.keyMightBeValid (childKeyAt s node i) = true ∧
          New.poolGet s (childKeyAt s node i) = .leaf d)
        then some (.leaf d) else none := by
  induction l with
  | nil => simp
  | cons a t ih =>
    simp only [List.foldl_cons, simplifyStep_leaf]
    by_cases ha : New.keyMightBeValid (childKeyAt s node a) = true ∧
        New.poolGet s (childKeyAt s node a) = .leaf d
    · rw [if_pos ha, ih]
      by_cases ht : ∀ i ∈ t, New.keyMightBeValid (childKeyAt s node i) = true ∧
          New.poolGet s (childKeyAt s node i) = .leaf d
      · rw [if_pos ht, if_pos]
        intro i hi
        rcases List.mem_cons.mp hi with rfl | hit
        · exact ha
        · exact ht i hit
      · rw [if_neg ht, if_neg]
        intro hcontra
        exact ht fun i hi => hcontra i (List.mem_cons_of_mem a hi)
    · rw [if_neg ha, simplifyFold_none, if_neg]
      intro hcontra
      exact ha (hcontra a (List.mem_cons_self a t))

theorem ncIsEmpty_ncPut_noChildren (st : New.NState V) (k : Nat) (x : New.NodeChildren)
    (j : Nat) (hj : j ≠ k → New.ncIsEmpty (New.ncAt st j) = true) :
    New.ncIsEmpty (New.ncAt (New.ncPut st k { x with content := .noChildren }) j) = true := by
  by_cases h : j = k
  · subst h
    simp only [New.ncAt, New.ncPut]
    by_cases hl : j < st.nodeChildren.length
    · rw [List.getD_eq_getElem _ _ (by simpa using hl), List.getElem_set_self]
      rfl
    · rw [List.getD_eq_default _ _ (by simpa using Nat.le_of_not_lt hl)]
      rfl
  · have : New.ncAt (New.ncPut st k { x with content := .noChildren }) j = New.ncAt st j := by
      simp only [New.ncAt, New.ncPut]
      by_cases hl : j < st.nodeChildren.length
      · rw [List.getD_eq_getElem _ _ (by simpa using hl), List.getD_eq_getElem _ _ hl,
          List.getElem_set_ne (by omega)]
    
      · rw [List.getD_eq_default _ _ (by simpa using Nat.le_of_not_lt hl),
          List.getD_eq_default _ _ (Nat.le_of_not_lt hl)]
    rw [this]
    exact hj h

theorem deallocFoldM_spec (fuel : Nat) (hf : 1 ≤ fuel) :
    ∀ (l : List Nat) (st : New.NState V),
      (∀ k ∈ l, New.ncIsEmpty (New.ncAt st k) = true ∧ k < st.nodes.length) →
      ∃ st2,
        List.foldlM (m := Option)
            (fun st child =>
              (New.deallocateChildrenOf fuel st child).map (New.poolFree · child))
            st l = some st2 ∧
          st2.nodes = st.nodes ∧
          st2.nodeChildren.length = st.nodeChildren.length ∧
          (∀ k ∈ l, k ∈ st2.freeList) ∧
          (∀ k ∈ st.freeList, k ∈ st2.freeList) ∧
          (∀ j, New.ncIsEmpty (New.ncAt st j) = true → New.ncIsEmpty (New.ncAt st2 j) = true) := by
  intro l
  induction l with
  | nil =>
    intro st _
    exact ⟨st, rfl, rfl, rfl, by simp, fun k hk => hk, fun j hj => hj⟩
  | cons a t ih =>
    intro st hl
    obtain ⟨ha1, ha2⟩ := hl a (List.mem_cons_self a t)
    obtain ⟨f, rfl⟩ : ∃ f, fuel = f + 1 := ⟨fuel - 1, by omega⟩
    have hstep : New.deallocateChildrenOf (f + 1) st a =
        some (New.ncPut st a { New.ncAt st a with content := .noChildren }) := by
      rw [New.deallocateChildrenOf]
      rw [(ncIsEmpty_iff _).mp ha1]
    set st1 := New.poolFree (New.ncPut st a { New.ncAt st a with content := .noChildren }) a
      with hst1
    have hnodes1 : st1.nodes = st.nodes := by
      simp [hst1, New.poolFree, New.ncPut]
      split <;> rfl
    have hfree1 : st1.freeList = a :: st.freeList := by
      simp only [hst1, New.poolFree, New.ncPut]
      rw [if_pos (by simpa using ha2)]
    have hncl1 : st1.nodeChildren.length = st.nodeChildren.length := by
      simp [hst1, New.poolFree, New.ncPut]
      split <;> simp
    have hemp1 : ∀ j, New.ncIsEmpty (New.ncAt st j) = true →
        New.ncIsEmpty (New.ncAt st1 j) = true := by
      intro j hj
      have : New.ncAt st1 j =
          New.ncAt (New.ncPut st a { New.ncAt st a with content := .noChildren }) j := by
        simp only [hst1, New.poolFree]
        split <;> rfl
      rw [this]
      exact ncIsEmpty_ncPut_noChildren st a _ j (fun _ => hj)
    obtain ⟨st2, hfold, hn2, hncl2, hmem2, hsub2, hemp2⟩ := ih st1 (by
      intro k hk
      obtain ⟨hk1, hk2⟩ := hl k (List.mem_cons_of_mem a hk)
      exact ⟨hemp1 k hk1, by rw [hnodes1]; exact hk2⟩)
    refine ⟨st2, ?_, by rw [hn2, hnodes1], by rw [hncl2, hncl1], ?_, ?_, ?_⟩
    · rw [List.foldlM_cons, hstep]
      simpa using hfold
    · intro k hk
      rcases List.mem_cons.mp hk with rfl | hkt
      · apply hsub2
        rw [hfree1]
        exact List.mem_cons_self _ _
      · exact hmem2 k hkt
    · intro k hk
      apply hsub2
      rw [hfree1]
      exact List.mem_cons_of_mem _ hk
    · intro j hj
      exact hemp2 j (hemp1 j hj)

theorem poolGet_leaf_lt {s : New.NState V} {k : Nat} {b : New.Brick V}
    (h : New.poolGet s k = .leaf b) : k < s.nodes.length := by
  by_cases hk : k < s.nodes.length
  · exact hk
  · exfalso
    rw [New.poolGet, List.getD_eq_default _ _ (Nat.le_of_not_lt hk)] at h
    exact absurd h (by simp)

theorem ncGood_iff (nc : New.NodeChildren) :
    (decide (nc.defaultKey = New.keyNoneValue) &&
        (match nc.content with
          | .children c => decide (c.length = 8) && c.all fun k => decide (k ≠ 0)
          | .noChildren => true)) = true ↔
      nc.defaultKey = New.keyNoneValue ∧
        ∀ c, nc.content = .children c → c.length = 8 ∧ ∀ k ∈ c, k ≠ 0 := by
  rw [Bool.and_eq_true, decide_eq_true_eq]
  constructor
  · rintro ⟨hd, hm⟩
    refine ⟨hd, fun c hc => ?_⟩
    rw [hc] at hm
    rw [Bool.and_eq_true, decide_eq_true_eq, List.all_eq_true] at hm
    exact ⟨hm.1, fun k hk => by simpa using hm.2 k hk⟩
  · rintro ⟨hd, hm⟩
    refine ⟨hd, ?_⟩
    rcases hc : nc.content with _ | c
    · rfl
    · obtain ⟨hl, hk⟩ := hm c hc
      rw [Bool.and_eq_true, decide_eq_true_eq, List.all_eq_true]
      exact ⟨hl, fun k hkk => by simpa using hk k hkk⟩

theorem rootSafe_iff (s : New.NState V) :
    rootSafe s = true ↔
      0 < s.nodes.length ∧ 0 ∉ s.freeList ∧
        ∀ nc ∈ s.nodeChildren, nc.defaultKey = New.keyNoneValue ∧
          ∀ c, nc.content = .children c → c.length = 8 ∧ ∀ k ∈ c, k ≠ 0 := by
  rw [rootSafe, Bool.and_eq_true, Bool.and_eq_true, decide_eq_true_eq, decide_eq_true_eq,
    List.all_eq_true]
  constructor
  · rintro ⟨⟨h1, h2⟩, h3⟩
    exact ⟨h1, h2, fun nc hnc => (ncGood_iff nc).mp (h3 nc hnc)⟩
  · rintro ⟨h1, h2, h3⟩
    exact ⟨⟨h1, h2⟩, fun nc hnc => (ncGood_iff nc).mpr (h3 nc hnc)⟩

theorem ncGood_ncAt {s : New.NState V} (hs : rootSafe s = true) (node : Nat) :
    (New.ncAt s node).defaultKey = New.keyNoneValue ∧
      ∀ c, (New.ncAt s node).content = .children c → c.length = 8 ∧ ∀ k ∈ c, k ≠ 0 := by
  obtain ⟨-, -, h3⟩ := (rootSafe_iff s).mp hs
  by_cases h : node < s.nodeChildren.length
  · exact h3 _ (by rw [show New.ncAt s node = s.nodeChildren.getD node (New.ncNew New.keyNoneValue) from rfl, List.getD_eq_getElem _ _ h]; exact List.getElem_mem h)
  · rw [show New.ncAt s node = s.nodeChildren.getD node (New.ncNew New.keyNoneValue) from rfl,
      List.getD_eq_default _ _ (Nat.le_of_not_lt h)]
    exact ⟨rfl, fun c hc => by simp [New.ncNew] at hc⟩

theorem ncGetIdx_ne_zero {s : New.NState V} (hs : rootSafe s = true) (node i : Nat) :
    New.ncGetIdx (New.ncAt s node) i ≠ 0 := by
  obtain ⟨hd, hcc⟩ := ncGood_ncAt hs node
  rcases hc : (New.ncAt s node).content with _ | c
  · simp only [New.ncGetIdx, hc, hd]
    decide
  · obtain ⟨hl, hk⟩ := hcc c hc
    simp only [New.ncGetIdx, hc]
    by_cases hil : i < c.length
    · rw [List.getD_eq_getElem _ _ hil]
      exact hk _ (List.getElem_mem hil)
    · rw [List.getD_eq_default _ _ (Nat.le_of_not_lt hil), hd]
      decide

theorem rootSafe_poolSet (s : New.NState V) (k : Nat) (c : New.NodeContent (New.Brick V)) :
    rootSafe (New.poolSet s k c) = rootSafe s := by
  simp [rootSafe, New.poolSet]

theorem rootSafe_poolFree {s : New.NState V} (hs : rootSafe s = true) {k : Nat} (hk : k ≠ 0) :
    rootSafe (New.poolFree s k) = true := by
  obtain ⟨h1, h2, h3⟩ := (rootSafe_iff s).mp hs
  rw [New.poolFree]
  split
  · rw [rootSafe_iff]
    refine ⟨h1, ?_, h3⟩
    simp only [List.mem_cons]
    rintro (h | h)
    · exact hk h.symm
    · exact h2 h
  · exact hs

theorem rootSafe_ncPut {s : New.NState V} (hs : rootSafe s = true) (k : Nat)
    {nc : New.NodeChildren}
    (hg : nc.defaultKey = New.keyNoneValue ∧
      ∀ c, nc.content = .children c → c.length = 8 ∧ ∀ k ∈ c, k ≠ 0) :
    rootSafe (New.ncPut s k nc) = true := by
  obtain ⟨h1, h2, h3⟩ := (rootSafe_iff s).mp hs
  rw [rootSafe_iff]
  refine ⟨h1, h2, fun nc2 hnc2 => ?_⟩
  rcases List.mem_or_eq_of_mem_set hnc2 with h | rfl
  · exact h3 nc2 h
  · exact hg

theorem rootSafe_resizeChildren {s : New.NState V} (hs : rootSafe s = true) (n : Nat) :
    rootSafe (New.resizeChildren s n) = true := by
  obtain ⟨h1, h2, h3⟩ := (rootSafe_iff s).mp hs
  rw [rootSafe_iff]
  refine ⟨h1, h2, fun nc hnc => ?_⟩
  rcases List.mem_append.mp hnc with h | h
  · exact h3 nc (List.take_subset _ _ h)
  · rw [List.eq_of_mem_replicate h]
    exact ⟨rfl, fun c hc => by simp [New.ncNew] at hc⟩

theorem poolPush_spec {s : New.NState V} (hs : rootSafe s = true)
    (c : New.NodeContent (New.Brick V)) :
    rootSafe (New.poolPush s c).1 = true ∧ (New.poolPush s c).2 ≠ 0 ∧
      (New.poolPush s c).1.nodeChildren = s.nodeChildren := by
  obtain ⟨h1, h2, h3⟩ := (rootSafe_iff s).mp hs
  rw [New.poolPush]
  rcases hfl : s.freeList with _ | ⟨k, rest⟩
  · refine ⟨?_, ?_, rfl⟩
    · rw [rootSafe_iff]
      refine ⟨by simp, by simp, ?_⟩
      intro nc hnc
      exact h3 nc (by simpa using hnc)
    · show s.nodes.length ≠ 0
      omega
  · have hk0 : k ≠ 0 := fun h => h2 (by rw [hfl, h]; exact List.mem_cons_self _ _)
    refine ⟨?_, hk0, rfl⟩
    rw [rootSafe_iff]
    refine ⟨by simpa using h1, ?_, h3⟩
    intro hmem
    simp only at hmem
    exact h2 (by rw [hfl]; exact List.mem_cons_of_mem _ hmem)

theorem keyNoneValue_ne_zero : New.keyNoneValue ≠ 0 := by decide

theorem rootSafe_ncSetIdx {s : New.NState V} (hs : rootSafe s = true) (node idx key : Nat)
    (hkey : key ≠ 0) : rootSafe (New.ncSetIdx s node idx key) = true := by
  obtain ⟨hd, hcc⟩ := ncGood_ncAt hs node
  have harr : ∀ (arr : List Nat), arr.length = 8 → (∀ k ∈ arr, k ≠ 0) →
      rootSafe (New.ncPut s node
        { New.ncAt s node with content := .children (arr.set idx key) }) = true := by
    intro arr hlen hmem
    apply rootSafe_ncPut hs node
    refine ⟨hd, fun c hc => ?_⟩
    have hc2 : arr.set idx key = c := by injection hc
    subst hc2
    constructor
    · rw [List.length_set]; exact hlen
    · intro k hk
      rcases List.mem_or_eq_of_mem_set hk with h | rfl
      · exact hmem k h
      · exact hkey
  simp only [New.ncSetIdx]
  rcases hcon : (New.ncAt s node).content with _ | c
  · simp only [hcon]
    refine harr _ (by simp) ?_
    intro k hk
    rw [List.eq_of_mem_replicate hk, hd]
    exact keyNoneValue_ne_zero
  · simp only [hcon]
    obtain ⟨hl, hk⟩ := hcc c hcon
    exact harr c hl hk

theorem dealloc_spec :
    ∀ (fuel : Nat) (s : New.NState V) (node : Nat) (s1 : New.NState V),
      rootSafe s = true → New.deallocateChildrenOf fuel s node = some s1 →
      rootSafe s1 = true ∧ s1.nodes = s.nodes ∧
        s1.nodeChildren.length = s.nodeChildren.length ∧
        ∀ j ∈ s.freeList, j ∈ s1.freeList := by
  intro fuel
  induction fuel with
  | zero =>
    intro s node s1 _ h
    rw [New.deallocateChildrenOf] at h
    exact absurd h (by simp)
  | succ f ih =>
    intro s node s1 hs h
    rw [New.deallocateChildrenOf] at h
    rcases hc : (New.ncAt s node).content with _ | c
    · simp only [hc] at h
      injection h with h
      subst h
      refine ⟨?_, rfl, List.length_set .., fun j hj => hj⟩
      apply rootSafe_ncPut hs node
      exact ⟨(ncGood_ncAt hs node).1, fun c hc2 => by simp at hc2⟩
    · simp only [hc] at h
      have hkeys : ∀ k ∈ c.filter New.keyMightBeValid, k ≠ 0 := fun k hk =>
        ((ncGood_ncAt hs node).2 c hc).2 k (List.mem_of_mem_filter hk)
      have hfold : ∀ (l : List Nat), (∀ k ∈ l, k ≠ 0) → ∀ (st st2 : New.NState V),
          rootSafe st = true →
          List.foldlM (m := Option)
              (fun st child =>
                (New.deallocateChildrenOf f st child).map (New.poolFree · child)) st l =
            some st2 →
          rootSafe st2 = true ∧ st2.nodes = st.nodes ∧
            st2.nodeChildren.length = st.nodeChildren.length ∧
            ∀ j ∈ st.freeList, j ∈ st2.freeList := by
        intro l
        induction l with
        | nil =>
          intro _ st st2 hst hf
          rw [List.foldlM_nil] at hf
          injection hf with hf
          subst hf
          exact ⟨hst, rfl, rfl, fun j hj => hj⟩
        | cons a t iht =>
          intro hl st st2 hst hf
          rw [List.foldlM_cons] at hf
          rcases hd : New.deallocateChildrenOf f st a with _ | sta
          · rw [hd] at hf
            simp at hf
          · rw [hd] at hf
            simp only [Option.map_some'] at hf
            obtain ⟨ha1, ha2, ha3, ha4⟩ := ih st a sta hst hd
            have hfr : rootSafe (New.poolFree sta a) = true :=
              rootSafe_poolFree ha1 (hl a (List.mem_cons_self a t))
            have hf2 : List.foldlM (m := Option)
                (fun st child =>
                  (New.deallocateChildrenOf f st child).map (New.poolFree · child))
                (New.poolFree sta a) t = some st2 := by
              simpa using hf
            obtain ⟨hb1, hb2, hb3, hb4⟩ :=
              iht (fun k hk => hl k (List.mem_cons_of_mem a hk)) (New.poolFree sta a) st2
                hfr hf2
            refine ⟨hb1, ?_, ?_, ?_⟩
            · rw [hb2]
              have : (New.poolFree sta a).nodes = sta.nodes := by
                rw [New.poolFree]
                split <;> rfl
              rw [this, ha2]
            · rw [hb3]
              have : (New.poolFree sta a).nodeChildren = sta.nodeChildren := by
                rw [New.poolFree]
                split <;> rfl
              rw [this, ha3]
            · intro j hj
              apply hb4
              have : (New.poolFree sta a).freeList = sta.freeList ∨
                  (New.poolFree sta a).freeList = a :: sta.freeList := by
                rw [New.poolFree]
                split
                · exact Or.inr rfl
                · exact Or.inl rfl
              rcases this with h | h
              · rw [h]; exact ha4 j hj
              · rw [h]; exact List.mem_cons_of_mem a (ha4 j hj)
      rcases hfd : List.foldlM (m := Option)
          (fun st child => (New.deallocateChildrenOf f st child).map (New.poolFree · child)) s
          (c.filter New.keyMightBeValid) with _ | s2
      · rw [hfd] at h
        simp at h
      · rw [hfd] at h
        injection h with h
        subst h
        obtain ⟨h1, h2, h3, h4⟩ := hfold _ hkeys s s2 hs hfd
        refine ⟨?_, h2, ?_, h4⟩
        · apply rootSafe_ncPut h1 node
          exact ⟨(ncGood_ncAt h1 node).1, fun c hc2 => by simp at hc2⟩
        · show (s2.nodeChildren.set node
              { New.ncAt s2 node with content := .noChildren }).length = s.nodeChildren.length
          rw [List.length_set, h3]

theorem makeUniformChildrenB_spec {s : New.NState V} (hs : rootSafe s = true)
    (b : New.Brick V) :
    rootSafe (New.makeUniformChildrenB s b).1 = true ∧
      (New.makeUniformChildrenB s b).2.length = 8 ∧
      ∀ k ∈ (New.makeUniformChildrenB s b).2, k ≠ 0 := by
  obtain ⟨hr0, hk0, -⟩ := poolPush_spec hs (.leaf b)
  obtain ⟨hr1, hk1, -⟩ := poolPush_spec hr0 (.leaf b)
  obtain ⟨hr2, hk2, -⟩ := poolPush_spec hr1 (.leaf b)
  obtain ⟨hr3, hk3, -⟩ := poolPush_spec hr2 (.leaf b)
  obtain ⟨hr4, hk4, -⟩ := poolPush_spec hr3 (.leaf b)
  obtain ⟨hr5, hk5, -⟩ := poolPush_spec hr4 (.leaf b)
  obtain ⟨hr6, hk6, -⟩ := poolPush_spec hr5 (.leaf b)
  obtain ⟨hr7, hk7, -⟩ := poolPush_spec hr6 (.leaf b)
  refine ⟨rootSafe_resizeChildren hr7 _, rfl, ?_⟩
  intro k hk
  simp only [New.makeUniformChildrenB, List.mem_cons, List.not_mem_nil, or_false] at hk
  rcases hk with rfl | rfl | rfl | rfl | rfl | rfl | rfl | rfl
  · exact hk0
  · exact hk1
  · exact hk2
  · exact hk3
  · exact hk4
  · exact hk5
  · exact hk6
  · exact hk7

theorem simplifyB_rootSafe {s : New.NState V} (hs : rootSafe s = true) (fuel node : Nat)
    {fl : Bool} {s1 : New.NState V} (h : New.simplifyB fuel s node = some (fl, s1)) :
    rootSafe s1 = true := by
  rw [New.simplifyB] at h
  by_cases hn : New.keyMightBeValid node = true
  · rw [if_pos hn] at h
    rcases hF : (List.range 8).foldl (New.simplifyStep s node) (some .nothing) with _ | data
    · rw [hF] at h
      injection h with h
      obtain ⟨-, h2⟩ := Prod.mk.injEq .. |>.mp h
      rw [← h2]
      exact hs
    · simp only [hF] at h
      rcases hD : New.deallocateChildrenOf fuel (New.poolSet s node data) node with _ | s2
      · rw [hD] at h
        simp at h
      · rw [hD] at h
        injection h with h
        obtain ⟨-, h2⟩ := Prod.mk.injEq .. |>.mp h
        rw [← h2]
        exact (dealloc_spec fuel _ node s2 (by rw [rootSafe_poolSet]; exact hs) hD).1
  · rw [if_neg hn] at h
    injection h with h
    obtain ⟨-, h2⟩ := Prod.mk.injEq .. |>.mp h
    rw [← h2]
    exact hs

theorem insertPostPass_rootSafe :
    ∀ (stack : List (Nat × Cube)) (fuel added : Nat) (s s1 : New.NState V) (flag : Bool),
      rootSafe s = true → New.insertPostPass fuel added s stack flag = some s1 →
      rootSafe s1 = true := by
  intro stack
  induction stack with
  | nil =>
    intro fuel added s s1 flag hs h
    rw [New.insertPostPass] at h
    injection h with h
    subst h
    exact hs
  | cons kb rest ih =>
    obtain ⟨k, bounds⟩ := kb
    intro fuel added s s1 flag hs h
    rw [New.insertPostPass] at h
    rcases hsi : (if flag then New.simplifyB fuel s k else some (false, s)) with _ | ⟨nf, sA⟩
    · rw [hsi] at h
      simp at h
    · simp only [hsi] at h
      have hsA : rootSafe sA = true := by
        cases flag with
        | true => exact simplifyB_rootSafe hs fuel k (by simpa using hsi)
        | false =>
          rw [if_neg (by simp)] at hsi
          injection hsi with hsi
          obtain ⟨-, h2⟩ := Prod.mk.injEq .. |>.mp hsi
          rw [← h2]
          exact hs
      rcases hpg : New.poolGet sA k with _ | cnt | bb
      · simp only [hpg] at h
        exact ih fuel added _ s1 nf (by rw [rootSafe_poolSet]; exact hsA) h
      · simp only [hpg] at h
        exact ih fuel added _ s1 nf (by rw [rootSafe_poolSet]; exact hsA) h
      · simp only [hpg] at h
        exact ih fuel added _ s1 nf hsA h

theorem clearPostPass_rootSafe :
    ∀ (stack : List (Nat × Cube)) (removed : Nat) (s : New.NState V),
      rootSafe s = true → rootSafe (New.clearPostPass removed s stack) = true := by
  intro stack
  induction stack with
  | nil => intro removed s hs; exact hs
  | cons kb rest ih =>
    obtain ⟨k, bounds⟩ := kb
    intro removed s hs
    rw [New.clearPostPass]
    rcases hpg : New.poolGet s k with _ | cnt | bb
    · simp only [hpg]
      exact ih removed _ (by rw [rootSafe_poolSet]; exact hs)
    · simp only [hpg]
      exact ih removed _ (by rw [rootSafe_poolSet]; exact hs)
    · simp only [hpg]
      exact ih removed _ hs

theorem insertLoopB_rootSafe (DIM : Nat) (p : V3n) (insertSize : Nat) (data : V) :
    ∀ (fuel : Nat) (s : New.NState V) (stack : List (Nat × Cube)) (s1 : New.NState V)
      (out : List (Nat × Cube) × Nat),
      rootSafe s = true →
      New.insertLoopB DIM p insertSize data fuel s stack = .done s1 out →
      rootSafe s1 = true := by
  intro fuel
  induction fuel with
  | zero =>
    intro s stack s1 out _ h
    rw [New.insertLoopB] at h
    exact LoopOut.noConfusion h
  | succ f ih =>
    intro s stack s1 out hs h
    rcases stack with _ | ⟨⟨k, bounds⟩, rest0⟩
    · rw [New.insertLoopB] at h
      exact LoopOut.noConfusion h
    simp only [New.insertLoopB] at h
    rcases hoct : New.childOctantForB bounds p with _ | octant
    · rw [hoct] at h
      exact LoopOut.noConfusion h
    simp only [hoct] at h
    by_cases hsz : max insertSize DIM < bounds.size
    · rw [if_pos hsz] at h
      by_cases hck : New.keyMightBeValid (New.ncGetIdx (New.ncAt s k) octant) = true
      · rw [if_pos hck] at h
        exact ih s _ s1 out hs h
      · rw [if_neg hck] at h
        rcases hpg : New.poolGet s k with _ | cnt | bb
        · simp only [hpg, New.NodeContent.isLeaf, Bool.false_and, Bool.false_eq_true,
            if_false] at h
          have hs1 : rootSafe (New.poolSet s k (.internal 0)) = true := by
            rw [rootSafe_poolSet]; exact hs
          obtain ⟨hpr, hprk, -⟩ := poolPush_spec hs1 (.internal 0)
          have hs3 := rootSafe_resizeChildren hpr
            (New.poolLen (New.poolPush (New.poolSet s k (.internal 0)) (.internal 0)).1)
          have hs4 := rootSafe_ncSetIdx hs3 k octant _ hprk
          exact ih _ _ s1 out hs4 h
        · simp only [hpg, New.NodeContent.isLeaf, Bool.false_and, Bool.false_eq_true,
            if_false] at h
          obtain ⟨hpr, hprk, -⟩ := poolPush_spec hs (.internal 0)
          have hs3 := rootSafe_resizeChildren hpr
            (New.poolLen (New.poolPush s (.internal 0)).1)
          have hs4 := rootSafe_ncSetIdx hs3 k octant _ hprk
          exact ih _ _ s1 out hs4 h
        · simp only [hpg, New.NodeContent.isLeaf, Bool.true_and, eq_self_iff_true,
            if_true] at h
          by_cases hall : New.isAll (New.NodeContent.leaf bb) data = true
          · rw [if_pos hall] at h
            injection h with h1 h2
            rw [← h1]
            exact hs
          · rw [if_neg hall] at h
            obtain ⟨hmu, hlen8, hmem⟩ := makeUniformChildrenB_spec hs bb
            have hs2 : rootSafe
                (New.poolSet (New.makeUniformChildrenB s bb).1 k (.internal 0)) = true := by
              rw [rootSafe_poolSet]; exact hmu
            have hs3 : rootSafe (New.ncPut
                (New.poolSet (New.makeUniformChildrenB s bb).1 k (.internal 0)) k
                { New.ncAt (New.poolSet (New.makeUniformChildrenB s bb).1 k (.internal 0)) k
                    with content := .children (New.makeUniformChildrenB s bb).2 }) = true := by
              apply rootSafe_ncPut hs2 k
              refine ⟨(ncGood_ncAt hs2 k).1, fun c hc => ?_⟩
              have hc2 : (New.makeUniformChildrenB s bb).2 = c := by injection hc
              rw [← hc2]
              exact ⟨hlen8, hmem⟩
            exact ih _ _ s1 out hs3 h
    · rw [if_neg hsz] at h
      rcases hpg : New.poolGet s k with _ | cnt | bb
      · simp only [hpg] at h
        by_cases hcond : insertSize = DIM ∨ bounds.size ≤ insertSize
        · rw [if_pos hcond] at h
          rcases hdl : New.deallocateChildrenOf f
              (New.poolSet s k (New.leafFrom DIM data)) k with _ | s2
          · rw [hdl] at h
            exact LoopOut.noConfusion h
          · rw [hdl] at h
            injection h with h1 h2
            rw [← h1]
            exact (dealloc_spec f _ k s2 (by rw [rootSafe_poolSet]; exact hs) hdl).1
        · rw [if_neg hcond] at h
          injection h with h1 h2
          rw [← h1, rootSafe_poolSet]
          exact hs
      · simp only [hpg] at h
        by_cases hcond : insertSize = DIM ∨ bounds.size ≤ insertSize
        · rw [if_pos hcond] at h
          rcases hdl : New.deallocateChildrenOf f
              (New.poolSet s k (New.leafFrom DIM data)) k with _ | s2
          · rw [hdl] at h
            exact LoopOut.noConfusion h
          · rw [hdl] at h
            injection h with h1 h2
            rw [← h1]
            exact (dealloc_spec f _ k s2 (by rw [rootSafe_poolSet]; exact hs) hdl).1
        · rw [if_neg hcond] at h
          injection h with h1 h2
          rw [← h1, rootSafe_poolSet]
          exact hs
      · simp only [hpg] at h
        injection h with h1 h2
        rw [← h1, rootSafe_poolSet]
        exact hs

theorem clearLoopB_rootSafe (DIM : Nat) (p : V3n) (clearSize : Nat) :
    ∀ (fuel : Nat) (s : New.NState V) (stack : List (Nat × Cube)) (octant : Nat)
      (s1 : New.NState V) (out : List (Nat × Cube) × Nat),
      rootSafe s = true →
      (2 ≤ stack.length → (stack.headD (0, Cube.rootBounds 0)).1 ≠ 0) →
      New.clearLoopB DIM p clearSize fuel s stack octant = .done s1 out →
      rootSafe s1 = true := by
  intro fuel
  induction fuel with
  | zero =>
    intro s stack octant s1 out _ _ h
    rw [New.clearLoopB] at h
    exact LoopOut.noConfusion h
  | succ f ih =>
    intro s stack octant s1 out hs hstk h
    rcases stack with _ | ⟨⟨k, bounds⟩, rest0⟩
    · rw [New.clearLoopB] at h
      exact LoopOut.noConfusion h
    simp only [New.clearLoopB] at h
    by_cases hsz : max clearSize DIM < bounds.size
    · rw [if_pos hsz] at h
      rcases hoct : New.childOctantForB bounds p with _ | newOct
      · rw [hoct] at h
        exact LoopOut.noConfusion h
      simp only [hoct] at h
      by_cases hck : New.keyMightBeValid (New.ncGetIdx (New.ncAt s k) newOct) = true
      · rw [if_pos hck] at h
        refine ih s _ newOct s1 out hs ?_ h
        intro _
        simp only [List.headD_cons]
        exact ncGetIdx_ne_zero hs k newOct
      · rw [if_neg hck] at h
        rcases hpg : New.poolGet s k with _ | cnt | bb
        · simp only [hpg, New.NodeContent.isLeaf, Bool.false_eq_true, if_false] at h
          injection h with h1 h2
          rw [← h1]
          exact hs
        · simp only [hpg, New.NodeContent.isLeaf, Bool.false_eq_true, if_false] at h
          injection h with h1 h2
          rw [← h1]
          exact hs
        · simp only [hpg, New.NodeContent.isLeaf, eq_self_iff_true, if_true] at h
          obtain ⟨hmu, hlen8, hmem⟩ := makeUniformChildrenB_spec hs bb
          have hs2 : rootSafe (New.poolSet (New.makeUniformChildrenB s bb).1 k
              (.internal (bounds.size ^ 3))) = true := by
            rw [rootSafe_poolSet]; exact hmu
          have hs3 : rootSafe (New.ncPut
              (New.poolSet (New.makeUniformChildrenB s bb).1 k (.internal (bounds.size ^ 3))) k
              { New.ncAt (New.poolSet (New.makeUniformChildrenB s bb).1 k
                  (.internal (bounds.size ^ 3))) k
                  with content := .children (New.makeUniformChildrenB s bb).2 }) = true := by
            apply rootSafe_ncPut hs2 k
            refine ⟨(ncGood_ncAt hs2 k).1, fun c hc => ?_⟩
            have hc2 : (New.makeUniformChildrenB s bb).2 = c := by injection hc
            rw [← hc2]
            exact ⟨hlen8, hmem⟩
          refine ih _ _ newOct s1 out hs3 ?_ h
          intro _
          simp only [List.headD_cons]
          exact ncGetIdx_ne_zero hs3 k newOct
    · rw [if_neg hsz] at h
      by_cases hc1 : clearSize = 1
      · rw [if_pos hc1] at h
        rcases hpg : New.poolGet s k with _ | cnt | d
        · simp only [hpg] at h
          exact LoopOut.noConfusion h
        · simp only [hpg] at h
          exact LoopOut.noConfusion h
        · simp only [hpg] at h
          injection h with h1 h2
          rw [← h1, rootSafe_poolSet]
          exact hs
      · rw [if_neg hc1] at h
        by_cases hcd : clearSize < DIM
        · rw [if_pos hcd] at h
          rcases hpg : New.poolGet s k with _ | cnt | d
          · simp only [hpg] at h
            exact LoopOut.noConfusion h
          · simp only [hpg] at h
            exact LoopOut.noConfusion h
          · simp only [hpg] at h
            injection h with h1 h2
            rw [← h1, rootSafe_poolSet]
            exact hs
        · rw [if_neg hcd] at h
          rcases hdl : New.deallocateChildrenOf f s k with _ | sA
          · rw [hdl] at h
            exact LoopOut.noConfusion h
          · simp only [hdl] at h
            have hsA := (dealloc_spec f s k sA hs hdl).1
            by_cases hcc : 2 ≤ ((k, bounds) :: rest0).length ∧ octant < 9
            · rw [if_pos hcc] at h
              rcases rest0 with _ | ⟨⟨pk, pb⟩, rest1⟩
              · exfalso
                have := hcc.1
                simp at this
              · simp only [List.get?_cons_succ, List.get?_cons_zero] at h
                injection h with h1 h2
                rw [← h1]
                have hk0 := hstk (by simp)
                simp only [List.headD_cons] at hk0
                exact rootSafe_ncSetIdx (rootSafe_poolFree hsA hk0) pk octant _
                  keyNoneValue_ne_zero
            · rw [if_neg hcc] at h
              injection h with h1 h2
              rw [← h1, rootSafe_poolSet]
              exact hsA

theorem insertAtLodB_rootSafe {s s1 : New.NState V} {p : V3n} {insertSize : Nat} {data : V}
    {fuel DIM : Nat} (hs : rootSafe s = true)
    (h : New.insertAtLodB DIM s p insertSize data fuel = .ok s1) :
    rootSafe s1 = true := by
  rw [New.insertAtLodB] at h
  cases hbc : New.boundContains (Cube.rootBounds s.octreeSize) p with
  | false =>
    rw [hbc] at h
    simp at h
  | true =>
    simp only [hbc, Bool.not_true, Bool.false_eq_true, if_false] at h
    rcases hL : New.insertLoopB DIM p insertSize data fuel s
        [(New.rootNodeKey, Cube.rootBounds s.octreeSize)] with ⟨sl, out⟩ | _ | _
    · obtain ⟨stk, added⟩ := out
      simp only [hL] at h
      rcases hP : New.insertPostPass fuel added sl stk sl.autoSimplify with _ | s2
      · rw [hP] at h
        exact OpOut.noConfusion h
      · rw [hP] at h
        injection h with h1
        rw [← h1]
        exact insertPostPass_rootSafe stk fuel added sl s2 sl.autoSimplify
          (insertLoopB_rootSafe DIM p insertSize data fuel s _ sl (stk, added) hs hL) hP
    · rw [hL] at h
      exact OpOut.noConfusion h
    · rw [hL] at h
      exact OpOut.noConfusion h

theorem clearAtLodB_rootSafe {s s1 : New.NState V} {p : V3n} {clearSize fuel DIM : Nat}
    (hs : rootSafe s = true)
    (h : New.clearAtLodB DIM s p clearSize fuel = .ok s1) :
    rootSafe s1 = true := by
  rw [New.clearAtLodB] at h
  cases hbc : New.boundContains (Cube.rootBounds s.octreeSize) p with
  | false =>
    rw [hbc] at h
    simp at h
  | true =>
    simp only [hbc, Bool.not_true, Bool.false_eq_true, if_false] at h
    rcases hL : New.clearLoopB DIM p clearSize fuel s
        [(New.rootNodeKey, Cube.rootBounds s.octreeSize)] 9 with ⟨sl, out⟩ | _ | _
    · obtain ⟨stk, removed⟩ := out
      simp only [hL] at h
      injection h with h1
      rw [← h1]
      exact clearPostPass_rootSafe stk.tail removed sl
        (clearLoopB_rootSafe DIM p clearSize fuel s _ 9 sl (stk, removed) hs
          (by intro hlen; simp at hlen) hL)
    · rw [hL] at h
      exact OpOut.noConfusion h
    · rw [hL] at h
      exact OpOut.noConfusion h

theorem ncGetIdx_ncSetIdx_self {s : New.NState V} (hs : rootSafe s = true)
    (node idx key : Nat) (hnode : node < s.nodeChildren.length) (hidx : idx < 8) :
    New.ncGetIdx (New.ncAt (New.ncSetIdx s node idx key) node) idx = key := by
  obtain ⟨hd, hcc⟩ := ncGood_ncAt hs node
  have harr : ∀ (arr : List Nat), arr.length = 8 →
      New.ncGetIdx (New.ncAt (New.ncPut s node
        { New.ncAt s node with content := .children (arr.set idx key) }) node) idx = key := by
    intro arr hlen
    have hAt : New.ncAt (New.ncPut s node
        { New.ncAt s node with content := .children (arr.set idx key) }) node =
        { New.ncAt s node with content := .children (arr.set idx key) } := by
      show (s.nodeChildren.set node
          { New.ncAt s node with
              content := .children (arr.set idx key) }).getD node (New.ncNew New.keyNoneValue) =
        { New.ncAt s node with content := .children (arr.set idx key) }
      rw [List.getD_eq_getElem _ _ (by rw [List.length_set]; exact hnode),
        List.getElem_set_self]
    rw [hAt]
    simp only [New.ncGetIdx]
    rw [List.getD_eq_getElem _ _ (by rw [List.length_set]; omega), List.getElem_set_self]
  simp only [New.ncSetIdx]
  rcases hcon : (New.ncAt s node).content with _ | c
  · simp only [hcon]
    exact harr _ (by simp)
  · simp only [hcon]
    exact harr c (hcc c hcon).1

end OctreeLemmas

/-- C10: the claim states that `get_mut(pos)` returns a value exactly when
`get(pos)` does and that the two values agree.  The embedded descents of
`get` (src/octree.rs:263-281) and `get_mut` (src/octree.rs:283-301) are
extensionally equal on every state, position and fuel, so the claim holds. -/
theorem claim10_get_get_mut_agree {V : Type} [DecidableEq V] (s : Old.OState V) (p : V3n) (fuel : Nat) :
    Old.getMut s p fuel = Old.get s p fuel := by
  have hloop : ∀ (f : Nat) (k : Old.Key), Old.getMutLoop p f s k = Old.getLoop p f s k := by
    intro f
    induction f with
    | zero => intro k; rfl
    | succ n ih =>
      intro k
      cases k with
      | none => rfl
      | some i =>
        simp only [Old.getMutLoop, Old.getLoop, ih]
  simp only [Old.getMut, Old.get, hloop]

/-- C4 (amended): `count_cached_children` (src/octree/detail.rs:230-247)
computes, for every state and node, the sum over the eight child slots of
the cached contributions — 0 for a missing or `Nothing` child, `c` for an
`Internal(c)` child, and 1 (not `DIM³`, as the claim stated) for a `Leaf`
child.  The counterexample theorem shows the claim's `DIM³`-weighted sum is
not maintained by the operations either. -/
theorem claim4_count_cached_children_sum {V : Type} [DecidableEq V] [Inhabited V]
    (s : New.NState V) (node : Nat) :
    New.countCachedChildren s node =
      ∑ i ∈ Finset.range 8, cachedChildContribution s node i := by
  have hstep : ∀ acc i, New.countStep s node acc i = acc + cachedChildContribution s node i := by
    intro acc i
    simp only [New.countStep, cachedChildContribution, childKeyAt]
    by_cases h : New.keyMightBeValid (New.ncGetIdx (New.ncAt s node) i) = true
    · simp only [h, if_true]
      rcases hpg : New.poolGet s (New.ncGetIdx (New.ncAt s node) i) with _ | c | b <;>
          simp only [hpg]
      omega
    · rw [Bool.not_eq_true] at h
      simp [h]
  have h8 : List.range 8 = [0, 1, 2, 3, 4, 5, 6, 7] := rfl
  simp only [New.countCachedChildren, h8, List.foldl_cons, List.foldl_nil, hstep]
  simp only [Finset.sum_range_succ, Finset.sum_range_zero]

/-- C6 (amended): the brick-engine `insert_at_lod` and `clear_at_lod`
(src/octree/update.rs:22-39, 187-199) perform no size validation and can
never return `InvalidNodeSize`, for any arguments whatsoever; the legacy
`insert_at_lod` and `clear_at_lod` (src/octree.rs:176-187, 377-383) do
return `InvalidNodeSize(size)` with the state unchanged whenever the size
argument is zero or not a power of two (stated for sizes up to `2^12`, on
which the source's f32 `log(2.0).fract()` test is exact). -/
theorem claim6_size_validation {V : Type} [DecidableEq V] [Inhabited V] :
    (∀ (DIM : Nat) (s : New.NState V) (p : V3n) (k : Nat) (v : V) (fuel : Nat)
        (e : Nat) (s2 : New.NState V),
        New.insertAtLodB DIM s p k v fuel ≠ .err (.invalidNodeSize e) s2 ∧
          New.clearAtLodB DIM s p k fuel ≠ .err (.invalidNodeSize e) s2) ∧
      (∀ (s : Old.OState V) (p : V3n) (k : Nat) (v : V) (fuel : Nat),
        k ≤ 4096 → sizeCheckFails k = true →
          Old.insertAtLod s p k v fuel = .err (.invalidNodeSize k) s ∧
            Old.clearAtLod s p k fuel = .err (.invalidNodeSize k) s) := by
  constructor
  · intro DIM s p k v fuel e s2
    constructor
    · simp only [New.insertAtLodB]
      split
      · simp
      · split
        · split <;> simp
        · simp
        · simp
    · simp only [New.clearAtLodB]
      split
      · simp
      · split <;> simp
  · intro s p k v fuel hk hs
    refine ⟨?_, ?_⟩
    · simp [Old.insertAtLod, hs]
    · simp [Old.clearAtLod, hs]

/-- Witness for C6: the legacy operations reject the non-power-of-two size 3
on the side-2 tree without mutating it, and the brick engine's insert with
size 3 is not an `InvalidNodeSize` error. -/
theorem claim6_size_validation_witness :
    (3 : Nat) ≤ 4096 ∧ sizeCheckFails 3 = true ∧
      Old.insertAtLod oldTree2 ⟨0, 0, 0⟩ 3 5 4 = .err (.invalidNodeSize 3) oldTree2 ∧
      Old.clearAtLod oldTree2 ⟨0, 0, 0⟩ 3 4 = .err (.invalidNodeSize 3) oldTree2 ∧
      New.insertAtLodB 1 brickTreeD1S4 ⟨0, 0, 0⟩ 3 7 6 ≠
        .err (.invalidNodeSize 3) brickTreeD1S4 := by
  obtain ⟨h1, h2⟩ := (claim6_size_validation (V := Nat)).2 oldTree2 ⟨0, 0, 0⟩ 3 5 4
    (by decide) (by decide)
  exact ⟨by decide, by decide, h1, h2,
    ((claim6_size_validation (V := Nat)).1 1 brickTreeD1S4 ⟨0, 0, 0⟩ 3 7 6 3 brickTreeD1S4).1⟩

/-- C3 (amended, brick engine): under the well-formedness conditions every
engine-built state satisfies (sentinel default keys, 8-slot child arrays, a
live node key, leaf children without child arrays, fuel for the bounded
recursion), `simplify(node)` returns true iff all eight children of the node
exist, are leaves, and hold one and the same brick; on success the node's
content becomes a `Leaf` holding that brick, its child array is emptied, and
all eight child slots are freed in the pool.  When the condition fails it
returns false with the state unchanged.  (The legacy `Octree::simplify`,
also cited by the claim, instead returns false even after collapsing — see
the counterexample theorem.) -/
theorem claim3_simplify_contract {V : Type} [DecidableEq V] [Inhabited V]
    (s : New.NState V) (node fuel : Nat)
    (hwf : ncWellFormed s = true)
    (hnode : New.keyMightBeValid node = true)
    (hlen : node < s.nodes.length)
    (hfuel : 2 ≤ fuel)
    (hI1 : ∀ i : Fin 8, New.ncIsEmpty (New.ncAt s (childKeyAt s node i)) = true) :
    ((∃ s2, New.simplifyB fuel s node = some (true, s2)) ↔ eightUniformLeafChildren s node) ∧
      (∀ b : New.Brick V,
        (∀ i : Fin 8, New.keyMightBeValid (childKeyAt s node i) = true ∧
            New.poolGet s (childKeyAt s node i) = .leaf b) →
        ∃ s2, New.simplifyB fuel s node = some (true, s2) ∧
          New.poolGet s2 node = .leaf b ∧
          New.ncIsEmpty (New.ncAt s2 node) = true ∧
          ∀ i : Fin 8, childKeyAt s node i ∈ s2.freeList) ∧
      (¬ eightUniformLeafChildren s node → New.simplifyB fuel s node = some (false, s)) := by
  obtain ⟨f, rfl⟩ : ∃ f, fuel = f + 1 := ⟨fuel - 1, by omega⟩
  have hf1 : 1 ≤ f := by omega
  have hrest : List.range 8 = 0 :: [1, 2, 3, 4, 5, 6, 7] := rfl
  have hPack : New.simplifyB (f + 1) s node = some (false, s) →
      ¬ eightUniformLeafChildren s node →
      ((∃ s2, New.simplifyB (f + 1) s node = some (true, s2)) ↔
        eightUniformLeafChildren s node) ∧
      (∀ b : New.Brick V,
        (∀ i : Fin 8, New.keyMightBeValid (childKeyAt s node i) = true ∧
            New.poolGet s (childKeyAt s node i) = .leaf b) →
        ∃ s2, New.simplifyB (f + 1) s node = some (true, s2) ∧
          New.poolGet s2 node = .leaf b ∧
          New.ncIsEmpty (New.ncAt s2 node) = true ∧
          ∀ i : Fin 8, childKeyAt s node i ∈ s2.freeList) ∧
      (¬ eightUniformLeafChildren s node → New.simplifyB (f + 1) s node = some (false, s)) := by
    intro hB hnotP
    refine ⟨?_, ?_, fun _ => hB⟩
    · constructor
      · rintro ⟨s2, hs2⟩
        rw [hB] at hs2
        simp at hs2
      · intro hP
        exact absurd hP hnotP
    · intro b hb
      exact absurd ⟨b, hb⟩ hnotP
  by_cases h0 : New.keyMightBeValid (childKeyAt s node 0) = true
  case neg =>
    have hstep0 : New.simplifyStep s node (some .nothing) 0 = none := by
      simp only [New.simplifyStep, childKeyAt] at *
      simp [h0]
    have hB : New.simplifyB (f + 1) s node = some (false, s) := by
      rw [New.simplifyB, if_pos hnode, hrest, List.foldl_cons, hstep0, simplifyFold_none]
    exact hPack hB (by rintro ⟨b, hb⟩; exact h0 (hb 0).1)
  case pos =>
    rcases hpg0 : New.poolGet s (childKeyAt s node 0) with _ | c0 | b0
    · have hstep0 : New.simplifyStep s node (some .nothing) 0 = none := by
        simp only [New.simplifyStep, childKeyAt] at *
        simp [h0, hpg0]
      have hB : New.simplifyB (f + 1) s node = some (false, s) := by
        rw [New.simplifyB, if_pos hnode, hrest, List.foldl_cons, hstep0, simplifyFold_none]
      refine hPack hB ?_
      rintro ⟨b, hb⟩
      have h2 := (hb 0).2
      rw [show ((0 : Fin 8) : Nat) = 0 from rfl, hpg0] at h2
      exact absurd h2 (by simp)
    · have hstep0 : New.simplifyStep s node (some .nothing) 0 = none := by
        simp only [New.simplifyStep, childKeyAt] at *
        simp [h0, hpg0]
      have hB : New.simplifyB (f + 1) s node = some (false, s) := by
        rw [New.simplifyB, if_pos hnode, hrest, List.foldl_cons, hstep0, simplifyFold_none]
      refine hPack hB ?_
      rintro ⟨b, hb⟩
      have h2 := (hb 0).2
      rw [show ((0 : Fin 8) : Nat) = 0 from rfl, hpg0] at h2
      exact absurd h2 (by simp)
    · -- child 0 is a leaf holding b0
      have hstep0 : New.simplifyStep s node (some .nothing) 0 = some (.leaf b0) := by
        simp only [New.simplifyStep, childKeyAt] at *
        simp [h0, hpg0]
      by_cases hall : ∀ i ∈ [1, 2, 3, 4, 5, 6, 7],
          New.keyMightBeValid (childKeyAt s node i) = true ∧
            New.poolGet s (childKeyAt s node i) = .leaf b0
      case neg =>
        have hF : (List.range 8).foldl (New.simplifyStep s node) (some .nothing) = none := by
          rw [hrest, List.foldl_cons, hstep0, simplifyFold_leaf, if_neg hall]
        have hB : New.simplifyB (f + 1) s node = some (false, s) := by
          rw [New.simplifyB, if_pos hnode, hF]
        refine hPack hB ?_
        rintro ⟨b, hb⟩
        have h2 := (hb 0).2
        rw [show ((0 : Fin 8) : Nat) = 0 from rfl, hpg0] at h2
        have hbb : b = b0 := by
          simpa using h2.symm
        subst hbb
        apply hall
        intro i hi
        simp only [List.mem_cons, List.not_mem_nil, or_false] at hi
        rcases hi with rfl | rfl | rfl | rfl | rfl | rfl | rfl
        · exact hb 1
        · exact hb 2
        · exact hb 3
        · exact hb 4
        · exact hb 5
        · exact hb 6
        · exact hb 7
      case pos =>
        have hF : (List.range 8).foldl (New.simplifyStep s node) (some .nothing) =
            some (.leaf b0) := by
          rw [hrest, List.foldl_cons, hstep0, simplifyFold_leaf, if_pos hall]
        have hgood : ∀ i : Fin 8, New.keyMightBeValid (childKeyAt s node i) = true ∧
            New.poolGet s (childKeyAt s node i) = .leaf b0 := by
          intro i
          fin_cases i
          · exact ⟨h0, hpg0⟩
          · exact hall 1 (by simp)
          · exact hall 2 (by simp)
          · exact hall 3 (by simp)
          · exact hall 4 (by simp)
          · exact hall 5 (by simp)
          · exact hall 6 (by simp)
          · exact hall 7 (by simp)
        have hP : eightUniformLeafChildren s node := ⟨b0, hgood⟩
        obtain ⟨c, hcon⟩ : ∃ c, (New.ncAt s node).content = .children c := by
          rcases hcc : (New.ncAt s node).content with _ | c
          · exfalso
            have hdk : childKeyAt s node 0 = (New.ncAt s node).defaultKey := by
              simp [childKeyAt, New.ncGetIdx, hcc]
            rw [hdk, ncWF_defaultKey hwf] at h0
            rw [keyMightBeValid_none] at h0
            exact absurd h0 (by simp)
          · exact ⟨c, rfl⟩
        have hc8 : c.length = 8 := ncWF_len8 hwf node c hcon
        have hck : ∀ i : Fin 8, childKeyAt s node i =
            c.getD i (New.ncAt s node).defaultKey := by
          intro i
          simp [childKeyAt, New.ncGetIdx, hcon]
        have hcmem : ∀ a ∈ c, ∃ i : Fin 8, childKeyAt s node i = a := by
          intro a ha
          obtain ⟨i, hi, rfl⟩ := List.mem_iff_getElem.mp ha
          refine ⟨⟨i, by omega⟩, ?_⟩
          rw [hck ⟨i, by omega⟩]
          exact List.getD_eq_getElem c _ hi
        have hmemc : ∀ i : Fin 8, childKeyAt s node i ∈ c := by
          intro i
          rw [hck i, List.getD_eq_getElem c _ (by omega)]
          exact List.getElem_mem (by omega)
        have hcvalid : ∀ a ∈ c, New.keyMightBeValid a = true := by
          intro a ha
          obtain ⟨i, hia⟩ := hcmem a ha
          rw [← hia]
          exact (hgood i).1
        have hfilter : c.filter New.keyMightBeValid = c := List.filter_eq_self.mpr hcvalid
        set s1 := New.poolSet s node (.leaf b0) with hs1def
        have hncAt1 : ∀ j, New.ncAt s1 j = New.ncAt s j := fun j => rfl
        have hn1 : s1.nodes.length = s.nodes.length := by
          simp [hs1def, New.poolSet]
        obtain ⟨st2, hfold, hn2, hncl2, hmem2, hsub2, hemp2⟩ :=
          deallocFoldM_spec (V := V) f hf1 c s1 (by
            intro k hk
            obtain ⟨i, hik⟩ := hcmem k hk
            constructor
            · rw [hncAt1, ← hik]
              exact hI1 i
            · rw [hn1, ← hik]
              exact poolGet_leaf_lt (hgood i).2)
        set s2 := New.ncPut st2 node { New.ncAt st2 node with content := .noChildren }
          with hs2def
        have hdeal : New.deallocateChildrenOf (f + 1) s1 node = some s2 := by
          rw [New.deallocateChildrenOf]
          have hcon1 : (New.ncAt s1 node).content = .children c := by
            rw [hncAt1]
            exact hcon
          rw [hcon1]
          simp only [hfilter, hfold]
        have hB : New.simplifyB (f + 1) s node = some (true, s2) := by
          rw [New.simplifyB, if_pos hnode]
          simp only [hF, hdeal]
        have hleaf2 : New.poolGet s2 node = .leaf b0 := by
          have hn2nodes : s2.nodes = s.nodes.set node (.leaf b0) := by
            show st2.nodes = _
            rw [hn2]
            rfl
          rw [New.poolGet, hn2nodes,
            List.getD_eq_getElem _ _ (by rw [List.length_set]; exact hlen)]
          exact List.getElem_set_self ..
        have hemp2node : New.ncIsEmpty (New.ncAt s2 node) = true := by
          rw [hs2def]
          exact ncIsEmpty_ncPut_noChildren st2 node _ node (fun hne => absurd rfl hne)
        have hfree2 : s2.freeList = st2.freeList := rfl
        refine ⟨⟨fun _ => hP, fun _ => ⟨s2, hB⟩⟩, ?_, fun hnot => absurd hP hnot⟩
        intro b hb
        have hbb : b = b0 := by
          have h2 := (hb 0).2
          rw [show ((0 : Fin 8) : Nat) = 0 from rfl, hpg0] at h2
          simpa using h2.symm
        subst hbb
        refine ⟨s2, hB, hleaf2, hemp2node, ?_⟩
        intro i
        rw [hfree2]
        exact hmem2 _ (hmemc i)

/-- Witness for C3: on the concrete side-2 octree whose root has eight live
leaf children all holding the brick `[[[5]]]`, the simplification succeeds,
the root becomes that leaf, its child array is emptied and all eight child
slots are freed. -/
theorem claim3_simplify_contract_witness :
    ncWellFormed c3NewState = true ∧ 0 < c3NewState.nodes.length ∧
      ∃ s2, New.simplifyB 2 c3NewState 0 = some (true, s2) ∧
        New.poolGet s2 0 = .leaf [[[5]]] ∧
        New.ncIsEmpty (New.ncAt s2 0) = true ∧
        ∀ i : Fin 8, childKeyAt c3NewState 0 i ∈ s2.freeList := by
  refine ⟨by decide, by decide, ?_⟩
  exact (claim3_simplify_contract c3NewState 0 2 (by decide) (by decide) (by decide)
    (by decide) (by decide)).2.1 [[[5]]] (by decide)

/-- C8 (amended, brick engine): with `rootSafe` the invariant that slot 0 is
not on the free-list and no child array stores key 0 — (A) a successful
`insert_at_lod` preserves the invariant, so the root's slot is never freed;
(B) so does a successful `clear_at_lod`; (C) a node-level clear whose target
is the root (the clear size reaches the root bounds) deallocates the root's
subtree and resets the root's content to `Nothing` in place, keeping the
invariant; (D) one node-level clear step on a non-root stack head frees that
node's slot into the free-list and severs the parent's child link with the
`none` sentinel. -/
theorem claim8_root_preservation {V : Type} [DecidableEq V] [Inhabited V] (DIM : Nat) :
    (∀ (s s1 : New.NState V) (p : V3n) (insertSize : Nat) (data : V) (fuel : Nat),
        rootSafe s = true →
        New.insertAtLodB DIM s p insertSize data fuel = .ok s1 →
        rootSafe s1 = true ∧ 0 ∉ s1.freeList) ∧
      (∀ (s s1 : New.NState V) (p : V3n) (clearSize fuel : Nat),
        rootSafe s = true →
        New.clearAtLodB DIM s p clearSize fuel = .ok s1 →
        rootSafe s1 = true ∧ 0 ∉ s1.freeList) ∧
      (∀ (s sA : New.NState V) (p : V3n) (clearSize f : Nat),
        rootSafe s = true →
        New.boundContains (Cube.rootBounds s.octreeSize) p = true →
        s.octreeSize ≤ max clearSize DIM →
        clearSize ≠ 1 → DIM ≤ clearSize →
        New.deallocateChildrenOf f s New.rootNodeKey = some sA →
        New.clearAtLodB DIM s p clearSize (f + 1) =
            .ok (New.poolSet sA New.rootNodeKey .nothing) ∧
          New.poolGet (New.poolSet sA New.rootNodeKey .nothing) New.rootNodeKey = .nothing ∧
          rootSafe (New.poolSet sA New.rootNodeKey .nothing) = true ∧
          0 ∉ (New.poolSet sA New.rootNodeKey .nothing).freeList) ∧
      (∀ (s sA : New.NState V) (p : V3n) (clearSize f k pk : Nat) (bounds pb : Cube)
          (rest : List (Nat × Cube)) (octant : Nat),
        rootSafe s = true →
        bounds.size ≤ max clearSize DIM →
        clearSize ≠ 1 → DIM ≤ clearSize →
        octant < 8 → k ≠ 0 → k < s.nodes.length →
        pk < s.nodeChildren.length →
        New.deallocateChildrenOf f s k = some sA →
        New.clearLoopB DIM p clearSize (f + 1) s ((k, bounds) :: (pk, pb) :: rest) octant =
            .done (New.ncSetIdx (New.poolFree sA k) pk octant New.keyNoneValue)
              ((k, bounds) :: (pk, pb) :: rest, bounds.size ^ 3) ∧
          k ∈ (New.ncSetIdx (New.poolFree sA k) pk octant New.keyNoneValue).freeList ∧
          New.ncGetIdx
              (New.ncAt (New.ncSetIdx (New.poolFree sA k) pk octant New.keyNoneValue) pk)
              octant = New.keyNoneValue ∧
          rootSafe (New.ncSetIdx (New.poolFree sA k) pk octant New.keyNoneValue) = true) := by
  refine ⟨?_, ?_, ?_, ?_⟩
  · intro s s1 p insertSize data fuel hs h
    have h1 := insertAtLodB_rootSafe hs h
    exact ⟨h1, ((rootSafe_iff s1).mp h1).2.1⟩
  · intro s s1 p clearSize fuel hs h
    have h1 := clearAtLodB_rootSafe hs h
    exact ⟨h1, ((rootSafe_iff s1).mp h1).2.1⟩
  · intro s sA p clearSize f hs hbc hsz hc1 hdim hdl
    obtain ⟨hsA, hnodes, hncl, hfl⟩ := dealloc_spec f s New.rootNodeKey sA hs hdl
    have hloop : New.clearLoopB DIM p clearSize (f + 1) s
        [(New.rootNodeKey, Cube.rootBounds s.octreeSize)] 9 =
        .done (New.poolSet sA New.rootNodeKey .nothing)
          ([(New.rootNodeKey, Cube.rootBounds s.octreeSize)],
            (Cube.rootBounds s.octreeSize).size ^ 3) := by
      simp only [New.clearLoopB]
      rw [if_neg (by
        rw [show (Cube.rootBounds s.octreeSize).size = s.octreeSize from rfl]
        omega)]
      rw [if_neg hc1]
      rw [if_neg (Nat.not_lt.mpr hdim)]
      simp only [hdl]
      rw [if_neg (fun hcc => absurd hcc.2 (lt_irrefl 9))]
    have hmain : New.clearAtLodB DIM s p clearSize (f + 1) =
        .ok (New.poolSet sA New.rootNodeKey .nothing) := by
      rw [New.clearAtLodB]
      simp only [hbc, Bool.not_true, Bool.false_eq_true, if_false, hloop]
      rfl
    have h0len : 0 < s.nodes.length := ((rootSafe_iff s).mp hs).1
    refine ⟨hmain, ?_, ?_, ?_⟩
    · show (sA.nodes.set New.rootNodeKey .nothing).getD New.rootNodeKey .nothing = .nothing
      rw [List.getD_eq_getElem _ _ (by rw [List.length_set, hnodes]; exact h0len)]
      exact List.getElem_set_self ..
    · rw [rootSafe_poolSet]
      exact hsA
    · show 0 ∉ sA.freeList
      exact ((rootSafe_iff sA).mp hsA).2.1
  · intro s sA p clearSize f k pk bounds pb rest octant hs hsz hc1 hdim hoct hk0 hklen
      hpklen hdl
    obtain ⟨hsA, hnodes, hncl, hfl⟩ := dealloc_spec f s k sA hs hdl
    have hsF : rootSafe (New.poolFree sA k) = true := rootSafe_poolFree hsA hk0
    have hloop : New.clearLoopB DIM p clearSize (f + 1) s
        ((k, bounds) :: (pk, pb) :: rest) octant =
        .done (New.ncSetIdx (New.poolFree sA k) pk octant New.keyNoneValue)
          ((k, bounds) :: (pk, pb) :: rest, bounds.size ^ 3) := by
      simp only [New.clearLoopB]
      rw [if_neg (Nat.not_lt.mpr hsz)]
      rw [if_neg hc1]
      rw [if_neg (Nat.not_lt.mpr hdim)]
      simp only [hdl]
      rw [if_pos ⟨by simp, by omega⟩]
      simp only [List.get?_cons_succ, List.get?_cons_zero]
    refine ⟨hloop, ?_, ?_, ?_⟩
    · show k ∈ (New.poolFree sA k).freeList
      rw [New.poolFree, if_pos (by rw [hnodes]; exact hklen)]
      exact List.mem_cons_self ..
    · refine ncGetIdx_ncSetIdx_self hsF pk octant New.keyNoneValue ?_ hoct
      have : (New.poolFree sA k).nodeChildren = sA.nodeChildren := by
        rw [New.poolFree]
        split <;> rfl
      rw [this, hncl]
      exact hpklen
    · exact rootSafe_ncSetIdx hsF pk octant New.keyNoneValue keyNoneValue_ne_zero

/-- Witness for C8: on the concrete side-2 octree with one inserted voxel,
all four parts are exercised — insert and clear preserve `rootSafe`, a
root-targeted node-level clear leaves the root `Nothing` in place with slot
0 still off the free-list, and a node-level clear step on the non-root node
1 puts slot 1 on the free-list and writes the sentinel into the root's
child link. -/
theorem claim8_root_preservation_witness :
    (rootSafe c8NewInserted = true ∧ 0 ∉ c8NewInserted.freeList) ∧
      (rootSafe c8NewCleared = true ∧ 0 ∉ c8NewCleared.freeList) ∧
      (New.clearAtLodB 1 c8NewInserted ⟨0, 0, 0⟩ 2 6 =
          .ok (New.poolSet c8NewRootDealloc New.rootNodeKey .nothing) ∧
        New.poolGet (New.poolSet c8NewRootDealloc New.rootNodeKey .nothing)
            New.rootNodeKey = .nothing ∧
        rootSafe (New.poolSet c8NewRootDealloc New.rootNodeKey .nothing) = true ∧
        0 ∉ (New.poolSet c8NewRootDealloc New.rootNodeKey .nothing).freeList) ∧
      (New.clearLoopB 1 ⟨0, 0, 0⟩ 2 6 c8NewInserted
          [(1, ⟨⟨0, 0, 0⟩, 1⟩), (0, Cube.rootBounds 2)] 0 =
          .done (New.ncSetIdx (New.poolFree c8NewChildDealloc 1) 0 0 New.keyNoneValue)
            ([(1, ⟨⟨0, 0, 0⟩, 1⟩), (0, Cube.rootBounds 2)], 1) ∧
        1 ∈ (New.ncSetIdx (New.poolFree c8NewChildDealloc 1) 0 0 New.keyNoneValue).freeList ∧
        New.ncGetIdx
            (New.ncAt
              (New.ncSetIdx (New.poolFree c8NewChildDealloc 1) 0 0 New.keyNoneValue) 0) 0 =
          New.keyNoneValue ∧
        rootSafe (New.ncSetIdx (New.poolFree c8NewChildDealloc 1) 0 0 New.keyNoneValue) =
          true) := by
  refine ⟨?_, ?_, ?_, ?_⟩
  · exact (claim8_root_preservation 1).1 brickTreeD1S2 c8NewInserted ⟨0, 0, 0⟩ 1 5 6 (by decide) rfl
  · exact (claim8_root_preservation 1).2.1 c8NewInserted c8NewCleared ⟨0, 0, 0⟩ 1 6 (by decide) rfl
  · exact (claim8_root_preservation 1).2.2.1 c8NewInserted c8NewRootDealloc ⟨0, 0, 0⟩ 2 5 (by decide)
      (by decide) (by decide) (by decide) (by decide) rfl
  · exact (claim8_root_preservation 1).2.2.2 c8NewInserted c8NewChildDealloc ⟨0, 0, 0⟩ 2 5 1 0
      ⟨⟨0, 0, 0⟩, 1⟩ (Cube.rootBounds 2) [] 0 (by decide) (by decide) (by decide) (by decide)
      (by decide) (by decide) (by decide) (by decide) rfl

end Shocovox
